import Mathlib

/-!
# A verification model of the Laser search core (`src/search.cpp`, `src/timeman.h`)

This file gives a shallow embedding of the engine's search subsystem and
proves/refutes the specification claims about it.

Conventions of the embedding:

* The board, the move representation and the numeric engine constants live in
  other translation units that are not part of the two given sources; they are
  modelled from the specification (each such definition carries a doc comment
  saying so).  The two given sources (`search.cpp`, `timeman.h`) are translated
  literally.
* The mutually recursive search functions are embedded as one structural
  recursion on a `fuel : Nat` argument that returns a record of functions
  (`EngineFuns`); running out of fuel yields `none`.  Every recursive call uses
  the predecessor fuel, so all definitions compute by `rfl`/`decide`.
* The global mutable search state (`searchParams`, the transposition table, the
  `isStop` flag) is threaded explicitly as a `SearchState` value.  The
  wall-clock comparison `getTimeElapsed(startTime) * ONE_SECOND > timeLimit`
  is abstracted into an oracle `tmo : Nat → Nat → Bool` applied to the index of
  the clock poll and the current time limit; the oracle also covers a stop
  request arriving from the front end.  The `SearchStatistics` counters are
  pure observers (they never influence control flow or results) and are
  omitted.  The `cerr` diagnostic on a Type-1 hash collision is modelled as a
  `diags` log in the state.
* C++ board objects are mutated in place and copied via `staticCopy`; the
  embedding uses value semantics, which coincides with the source's
  copy-then-mutate discipline.  `doNullMove` is its own inverse (spec §6), so
  "apply, recurse, undo" becomes "recurse on `doNullMove b`, keep using `b`".
-/

namespace Laser

/-! ## Moves (modelled from the spec) -/

/-- Modelled from the spec: a move is "an opaque fixed-size token identifying
(from-square, to-square, promotion, capture flag)" with decidable equality
(`move.h` is not part of the given sources). -/
structure Move where
  startSq : Nat
  endSq : Nat
  promotion : Nat
  capture : Bool
deriving DecidableEq, Repr

/-- Modelled from the spec: the distinguished null-move token. -/
def NULL_MOVE : Move := ⟨0, 0, 0, false⟩

instance : Inhabited Move := ⟨NULL_MOVE⟩

/-- Modelled from the spec: capture flag accessor. -/
def isCapture (m : Move) : Bool := m.capture

/-- Modelled from the spec: promotion piece accessor (0 = no promotion,
piece-type indices otherwise; pawns cannot be promoted to, so 0 is free). -/
def getPromotion (m : Move) : Nat := m.promotion

/-- Modelled from the spec: promotion test. -/
def isPromotion (m : Move) : Bool := m.promotion ≠ 0

/-- Modelled from the spec: from-square accessor. -/
def getStartSq (m : Move) : Nat := m.startSq

/-- Modelled from the spec: to-square accessor. -/
def getEndSq (m : Move) : Nat := m.endSq

/-! ## Engine constants

`common.h` / `hash.h` are not part of the given sources.  The numeric values
are modelled from the spec, which constrains them ("`MATE_SCORE` a large
finite sentinel, `INFTY > MATE_SCORE`", "`MAX_DEPTH` (a compile-time constant,
e.g. 127)", piece-type indices 0–5); the concretely chosen values satisfy all
stated constraints. -/

/-- Modelled from the spec: side-to-move encoding, White = 0 (Black = 1,
obtained by `color ^^^ 1` as in the source's `color^1`). -/
def WHITE : Nat := 0

/-- Modelled from the spec: maximum search depth (compile-time constant,
e.g. 127). -/
def MAX_DEPTH : Int := 127

/-- Modelled from the spec: mate sentinel score. -/
def MATE_SCORE : Int := 32766

/-- Modelled from the spec: `INFTY > MATE_SCORE`. -/
def INFTY : Int := 32767

/-- Modelled from the spec: pawn value used in the null-move reduction. -/
def PAWN_VALUE : Int := 100

/-- Modelled from the spec: knight value used in futility margins. -/
def KNIGHT_VALUE : Int := 310

/-- Modelled from the spec: queen value used in futility margins and the
futility `|α| < QUEEN_VALUE` guard. -/
def QUEEN_VALUE : Int := 900

/-- Modelled from the spec: maximal positional score swing, used in the
futility margins and quiescence delta pruning. -/
def MAX_POS_SCORE : Int := 120

/-- Modelled from the spec: piece-type index of pawns. -/
def PAWNS : Nat := 0

/-- Modelled from the spec: piece-type index of knights. -/
def KNIGHTS : Nat := 1

/-- Modelled from the spec: piece-type index of rooks. -/
def ROOKS : Nat := 3

/-- Modelled from the spec: piece-type index of queens. -/
def QUEENS : Nat := 4

/-- Modelled from the spec: transposition-table node type `PV`. -/
def PV_NODE : Nat := 0

/-- Modelled from the spec: transposition-table node type `CUT`. -/
def CUT_NODE : Nat := 1

/-- Modelled from the spec: transposition-table node type `ALL`. -/
def ALL_NODE : Nat := 2

/-- Search mode `TIME` (from `timeman.h`). -/
def TIME : Int := 1

/-- Search mode `DEPTH` (from `timeman.h`). -/
def DEPTH : Int := 2

/-- Search mode `MOVETIME` (from `timeman.h`). -/
def MOVETIME : Int := 4

/-- Modelled from the spec: the "very large sentinel" time limit used for
non-TIME searches (`MAX_TIME` is not in the given sources). -/
def MAX_TIME : Nat := 2 ^ 63

/-- `IID_DEPTHS` from `search.cpp`, transcribed literally (`MAX_DEPTH + 1`
entries). -/
def IID_DEPTHS : List Int := [0,
   0,  0,  0,  0,  1,  1,  1,  2,  2,  2,
   3,  3,  3,  4,  4,  4,  5,  5,  5,  6,
   6,  6,  7,  7,  7,  8,  8,  8,  9,  9,
   9, 10, 10, 10, 11, 11, 11, 12, 12, 12,
  13, 13, 13, 14, 14, 14, 15, 15, 15, 16,
  16, 16, 17, 17, 17, 18, 18, 18, 19, 19,
  19, 20, 20, 20, 21, 21, 21, 22, 22, 22,
  23, 23, 23, 24, 24, 24, 25, 25, 25, 26,
  26, 26, 27, 27, 27, 28, 28, 28, 29, 29,
  29, 30, 30, 30, 30, 30, 30, 30, 30, 30,
  30, 30, 30, 30, 30, 30, 30, 30, 30, 30,
  30, 30, 30, 30, 30, 30, 30, 30, 30, 30,
  30, 30, 30, 30, 30, 30, 30]

/-- `FUTILITY_MARGIN` from `search.cpp`. -/
def FUTILITY_MARGIN : List Int :=
  [0, MAX_POS_SCORE, MAX_POS_SCORE + KNIGHT_VALUE, MAX_POS_SCORE + QUEEN_VALUE]

/-- `REVERSE_FUTILITY_MARGIN` from `search.cpp`. -/
def REVERSE_FUTILITY_MARGIN : List Int :=
  [0, MAX_POS_SCORE, MAX_POS_SCORE + 2 * PAWN_VALUE]

/-! ## Transposition table entries and search state -/

/-- Modelled from the spec: a TT entry is
`{best-move, depth, score, node-type, age}` (the fingerprint is the lookup
key).  The source's packed `getNodeType()` accessor becomes a plain field. -/
structure HashEntry where
  m : Move
  score : Int
  depth : Int
  nodeType : Nat
  age : Nat
deriving DecidableEq, Repr

/-- `SearchParameters` from `search.cpp`.  The killer array and history table
become total functions; `startTime` is absorbed into the clock oracle. -/
structure SearchParams where
  ply : Int
  nullMoveCount : Int
  timeLimit : Nat
  killers : Int → Move × Move
  historyTable : Nat → Nat → Nat → Int
  rootMoveNumber : Nat

/-- `SearchParameters::reset` from `search.cpp`: zero `ply` and the null-move
counter, clear both killer slots of every ply, zero the history table.
`timeLimit` and `rootMoveNumber` are untouched, as in the source. -/
def resetParams (p : SearchParams) : SearchParams :=
  { p with ply := 0, nullMoveCount := 0,
           killers := fun _ => (NULL_MOVE, NULL_MOVE),
           historyTable := fun _ _ _ => 0 }

/-- `SearchParameters::resetHistoryTable` from `search.cpp`. -/
def resetHistoryTable (p : SearchParams) : SearchParams :=
  { p with historyTable := fun _ _ _ => 0 }

/-- The process-wide mutable search state: `searchParams`, the transposition
table (keyed by position fingerprint), the `isStop` flag, the number of clock
polls so far (index into the clock oracle), and the log of Type-1 collision
diagnostics written to the error stream. -/
structure SearchState where
  params : SearchParams
  tt : Nat → Option HashEntry
  isStop : Bool
  polls : Nat
  diags : List Move

/-! ## The board interface (modelled from the spec)

The board/move generator is an external collaborator (spec §3, §6); its
operations are collected in a structure so that theorems quantify over every
implementation and concrete witnesses instantiate small executable ones.
`doPseudoLegalMove`/`doHashMove` return `none` exactly when the source
functions return `false` (the move was illegal). -/

structure BoardOps (β : Type) where
  getPlayerToMove : β → Nat
  isDraw : β → Bool
  isInCheck : β → Nat → Bool
  evaluate : β → Int
  evaluateMaterial : β → Int
  evaluatePositional : β → Int
  getNonPawnMaterial : β → Nat → Bool
  getAllLegalMoves : β → Nat → List Move
  getAllPseudoLegalMoves : β → Nat → List Move
  getPseudoLegalCheckEscapes : β → Nat → List Move
  getPseudoLegalCaptures : β → Nat → Bool → List Move
  getPseudoLegalPromotions : β → Nat → List Move
  getPseudoLegalChecks : β → Nat → List Move
  doPseudoLegalMove : β → Move → Nat → Option β
  doHashMove : β → Move → Nat → Option β
  doMove : β → Move → Nat → β
  doNullMove : β → β
  getSEE : β → Nat → Nat → Int
  getMVVLVAScore : β → Nat → Move → Int
  getExchangeScore : β → Nat → Move → Int
  isCheckMove : β → Move → Nat → Bool
  getPieceOnSquare : β → Nat → Nat → Nat
  valueOfPiece : β → Nat → Int
  getMoveNumber : β → Nat
  fingerprint : β → Nat

/-! ## Small helpers translated from `search.cpp` -/

/-- Element swap on lists (the source's `MoveList::swap` / `ScoreList::swap`). -/
def swapList {α : Type} [Inhabited α] (l : List α) (i j : Nat) : List α :=
  let a := l.getD i default
  let b := l.getD j default
  (l.set i b).set j a

/-- The scan inside `nextMove`, iterating over the remaining suffix of the
score list (the element at position `i` first): the running best index and
score are replaced only on a strictly greater score, keeping the earliest on
ties. -/
def selectBestAux : List Int → Nat → Nat → Int → Nat × Int
  | [], _, bestIndex, bestScore => (bestIndex, bestScore)
  | s :: rest, i, bestIndex, bestScore =>
    if s > bestScore then selectBestAux rest (i + 1) i s
    else selectBestAux rest (i + 1) bestIndex bestScore

/-- The scan inside `nextMove`: starting from position `i`, the index (and
score) of the best-scored element of `scores.drop i`, seeded with the running
best `(bestIndex, bestScore)`. -/
def selectBest (scores : List Int) (i : Nat) (bestIndex : Nat) (bestScore : Int) :
    Nat × Int :=
  selectBestAux (scores.drop i) i bestIndex bestScore

/-- `nextMove` from `search.cpp`: one pass of selection sort.  Returns the
selected move together with both lists after the swap. -/
def nextMove (moves : List Move) (scores : List Int) (index : Nat) :
    Move × List Move × List Int :=
  if index ≥ moves.length then
    (NULL_MOVE, moves, scores)
  else
    let r := selectBest scores (index + 1) index (scores.getD index 0)
    (moves.getD r.1 NULL_MOVE, swapList moves r.1 index, swapList scores r.1 index)

/-- `changePV` from `search.cpp`: the parent's line becomes
`best :: child-line`. -/
def changePV (best : Move) (child : List Move) : List Move := best :: child

/-- `scoreMate` from `search.cpp`.  The source reads the current ply from the
global `searchParams`; here it is the first argument.  The `depth` parameter
is unused, as in the source. -/
def scoreMate (ply : Int) (isInCheck : Bool) (depth alpha beta : Int) : Int :=
  let score := if isInCheck then -MATE_SCORE + ply else 0
  if score ≥ beta then beta
  else if score > alpha then score
  else alpha

/-- The null-move guard of `PVS` (`search.cpp` line 322). -/
def nullMoveGuard (depth : Int) (isPVNode : Bool) (nullMoveCount : Int)
    (staticEval beta : Int) (isInCheck nonPawnMaterial : Bool) : Bool :=
  decide (depth ≥ 3) && !isPVNode && decide (nullMoveCount < 2)
    && decide (staticEval ≥ beta) && !isInCheck && nonPawnMaterial

/-- The null-move reduction of `PVS` (`search.cpp` lines 324–333).  The C
division truncates toward zero; under the guard `staticEval ≥ beta` the
dividend is nonnegative, so this is the floor. -/
def nullMoveReduction (depth staticEval beta : Int) : Int :=
  let r : Int := if depth ≥ 11 then 4 else if depth ≥ 6 then 3 else 2
  min (depth - 2) (r + Int.tdiv (staticEval - beta) PAWN_VALUE)

/-- The futility-pruning guard of the `PVS` move loop (`search.cpp`
line 462). -/
def futilityGuard (isPVNode : Bool) (depth staticEval alpha : Int)
    (isInCheck : Bool) (m : Move) (givesCheck : Bool) : Bool :=
  !isPVNode && (decide (depth ≤ 3)
      && decide (staticEval ≤ alpha - FUTILITY_MARGIN.getD depth.toNat 0))
    && !isInCheck && !(isCapture m) && decide (|alpha| < QUEEN_VALUE)
    && !(isPromotion m) && !givesCheck

/-- The late-move-reduction guard of the `PVS` move loop (`search.cpp`
line 488). -/
def lmrGuard (isPVNode isInCheck : Bool) (m : Move) (depth : Int)
    (movesSearched : Nat) (alpha prevAlpha : Int) (killer0 killer1 : Move)
    (copyInCheck : Bool) : Bool :=
  !isPVNode && !isInCheck && !(isCapture m) && decide (depth ≥ 3)
    && decide (movesSearched > 2) && decide (alpha ≤ prevAlpha)
    && !(m == killer0) && !(m == killer1) && !(isPromotion m) && !copyInCheck

/-- The late-move-reduction amount (`search.cpp` line 493).  The source
computes `(int)((depth - 3.0)/4.0 + movesSearched/9.5)` in doubles; for the
reachable ranges (`depth ≤ 127`, `movesSearched` at most a few hundred) the
rounding errors never cross an integer boundary (the exact value
`(19(depth-3) + 8·ms)/76` is at distance ≥ 1/76 from any integer it is not
equal to), so the cast equals the exact rational floor, taken here with
truncating division on a nonnegative dividend (the guard gives `depth ≥ 3`). -/
def lmrReduction (depth : Int) (movesSearched : Nat) : Int :=
  min (depth - 2) (Int.tdiv (19 * (depth - 3) + 8 * (movesSearched : Int)) 76)

/-- The quiet-move ordering score at `depth ≥ 3` or PV nodes (`search.cpp`
lines 397–407). -/
def quietScoreHigh {β : Type} (B : BoardOps β) (b : β) (color : Nat)
    (p : SearchParams) (m : Move) : Int :=
  if m == (p.killers p.ply).1 then 0
  else if m == (p.killers p.ply).2 then -1
  else if getPromotion m == QUEENS then MAX_POS_SCORE
  else -MATE_SCORE
    + p.historyTable color (B.getPieceOnSquare b color (getStartSq m)) (getEndSq m)

/-- The quiet-move ordering score at shallow non-PV nodes (`search.cpp`
lines 428–437). -/
def quietScoreLow {β : Type} (B : BoardOps β) (b : β) (color : Nat)
    (p : SearchParams) (m : Move) : Int :=
  if m == (p.killers p.ply).1 then (PAWNS : Int) - (KNIGHTS : Int)
  else if m == (p.killers p.ply).2 then (PAWNS : Int) - (KNIGHTS : Int) - 1
  else if getPromotion m == QUEENS then 8 * (ROOKS : Int)
  else -MATE_SCORE
    + p.historyTable color (B.getPieceOnSquare b color (getStartSq m)) (getEndSq m)

/-- Move-list scoring for `depth ≥ 3` or PV nodes: SEE on the leading run of
captures (the source's scan stops at the first non-capture), quiet scores on
the rest (`search.cpp` lines 382–407). -/
def scoreMovesHigh {β : Type} (B : BoardOps β) (b : β) (color : Nat)
    (p : SearchParams) (moves : List Move) : List Int :=
  let caps := moves.takeWhile fun m => isCapture m
  caps.map (fun m => B.getSEE b color (getEndSq m))
    ++ (moves.drop caps.length).map (quietScoreHigh B b color p)

/-- Move-list scoring for shallow non-PV nodes: MVV/LVA on the leading run of
captures, shallow quiet scores on the rest (`search.cpp` lines 419–438). -/
def scoreMovesLow {β : Type} (B : BoardOps β) (b : β) (color : Nat)
    (p : SearchParams) (moves : List Move) : List Int :=
  let caps := moves.takeWhile fun m => isCapture m
  caps.map (fun m => B.getMVVLVAScore b color m)
    ++ (moves.drop caps.length).map (quietScoreLow B b color p)

/-- `transpositionTable.add` (the table itself is external; the spec contract
"inserts or replaces" is modelled as replacement at the position's
fingerprint, stamped with the current `rootMoveNumber` as age). -/
def ttAdd {β : Type} (B : BoardOps β) (b : β) (depth : Int) (m : Move)
    (score : Int) (nodeType : Nat) (st : SearchState) : SearchState :=
  { st with tt := fun k =>
      if k = B.fingerprint b then
        some ⟨m, score, depth, nodeType, st.params.rootMoveNumber⟩
      else st.tt k }

/-- The killer update on a quiet fail-high (`search.cpp` lines 522–527): the
new move enters slot 0 and the old slot 0 shifts to slot 1 unless the move
already occupies slot 0. -/
def recordKiller (m : Move) (st : SearchState) : SearchState :=
  let p := st.params
  if m == (p.killers p.ply).1 then st
  else
    { st with params :=
        { p with killers := fun q =>
            if q = p.ply then (m, (p.killers p.ply).1) else p.killers q } }

/-- The history-table credit `+= depth * depth` for a quiet move
(`search.cpp` lines 529–530 and 551–552). -/
def addHistory {β : Type} (B : BoardOps β) (b : β) (color : Nat) (depth : Int)
    (m : Move) (st : SearchState) : SearchState :=
  { st with params :=
      { st.params with historyTable := fun c pc sq =>
          if c = color ∧ pc = B.getPieceOnSquare b color (getStartSq m)
              ∧ sq = getEndSq m then
            st.params.historyTable c pc sq + depth * depth
          else st.params.historyTable c pc sq } }

/-- `ply` increment around a recursive search. -/
def bumpPly (st : SearchState) : SearchState :=
  { st with params := { st.params with ply := st.params.ply + 1 } }

/-- `ply` decrement after a recursive search. -/
def dropPly (st : SearchState) : SearchState :=
  { st with params := { st.params with ply := st.params.ply - 1 } }

/-! ## Time management (`timeman.h` and the driver in `search.cpp`) -/

/-- The time-limit initialisation of `getBestMove` (`search.cpp` line 137):
`MAX_TIME_FACTOR * value` for mode `TIME` (the double multiplication by 4.0
and the `uint64_t` cast are exact on the reachable range), the `MAX_TIME`
sentinel otherwise. -/
def timeLimitFor (mode value : Int) : Nat :=
  if mode = TIME then (4 * value).toNat else MAX_TIME

/-- The iterative-deepening continuation predicate of `getBestMove`
(`search.cpp` lines 165–167).  `softTimeOK` abstracts the floating
comparison `timeSoFar * ONE_SECOND < value * TIME_FACTOR`; it is only
consulted in mode `TIME`. -/
def continueSearch (mode value : Int) (softTimeOK : Bool) (rootDepth : Int) :
    Bool :=
  (mode == TIME && softTimeOK && decide (rootDepth ≤ MAX_DEPTH))
    || (mode == DEPTH && decide (rootDepth ≤ value))

/-! ## The search recursion

All mutually recursive functions of `search.cpp` are packaged into one record
and defined together by structural recursion on a fuel argument; fuel 0 gives
`none` everywhere and every recursive call, including a move-loop iteration,
uses the predecessor fuel.  This keeps the whole embedding computable by
`decide`/`rfl`.  Fields:

* `pvs`           — `PVS(b, color, depth, alpha, beta, pvLine)`; the returned
                    triple is (score, final content of `*pvLine`, state).
* `pvsLoop`       — the move loop of `PVS` (lines 447–540); carries the
                    per-node context, both lists, the loop index, the
                    `movesSearched` counter, the running `alpha` and `score`
                    variables, the best move `toHash`, the `line` child buffer
                    and the node's `pvLine` content.
* `probe`         — `probeTT`; the returned tuple is (result, `alpha` after
                    the by-reference update, `hashed`, `*pvLine`, state).
* `gbmfs`/`gbmfsLoop` — `getBestMoveForSort` and its loop.
* `q`, `qCapLoop`, `qPromLoop`, `qChkLoop` — `quiescence` and its three move
                    loops (captures, promotions, checks).  Quiescence never
                    touches the global state, so these are pure; the current
                    `searchParams.ply` is passed as the last argument.
* `cq`, `cqLoop`  — `checkQuiescence` and its loop.
* `gbmad`/`gbmadLoop` — `getBestMoveAtDepth` and its root loop.
* `gbm`/`gbmLoop` — the `getBestMove` driver and its iterative-deepening loop.
-/

/-- Exit status of the `PVS` move loop: timeout abort (`return -INFTY`),
beta cutoff (`return beta`), or normal loop exit carrying the final values of
the `score`, `alpha` and `toHash` variables. -/
inductive PvsLoopOut where
  | abort
  | cutoff
  | done (score alpha : Int) (toHash : Move)
deriving DecidableEq, Repr

/-- Exit status of a quiescence move loop: beta cutoff or normal exit with the
final `alpha`. -/
inductive QRes where
  | betaCut
  | cont (alpha : Int)
deriving DecidableEq, Repr

/-- Exit status of the check-quiescence loop: beta cutoff or normal exit with
the final `score` and `alpha` variables. -/
inductive CQRes where
  | betaCut
  | done (score alpha : Int)
deriving DecidableEq, Repr

/-- Results of `getBestMoveAtDepth`: the returned index and the values left in
the by-reference out-parameters `bestScore`, `isMate` (`none` when the early
stop return leaves them unwritten) and the root PV line. -/
structure GbmadOut where
  tempMove : Int
  bestScore : Option Int
  isMate : Option Bool
  pv : List Move
deriving DecidableEq, Repr

/-- The tail of `PVS` after its move loop (`search.cpp` lines 515–561 as seen
from the caller): a timeout abort returns `-INFTY`, a beta cutoff returns
`beta` (the TT/killer/history updates already happened inside the loop), and
a normal loop exit either detects "no legal move was searched" via
`score == -INFTY` and returns `scoreMate`, or performs the PV/all-node
transposition-table store and returns the final `alpha`. -/
def pvsFinish {β : Type} (B : BoardOps β) (b : β) (color : Nat)
    (depth beta prevAlpha : Int) (isInCheck : Bool) :
    Option (PvsLoopOut × List Move × SearchState) →
    Option (Int × List Move × SearchState)
  | none => none
  | some (.abort, pvF, stF) => some (-INFTY, pvF, stF)
  | some (.cutoff, pvF, stF) => some (beta, pvF, stF)
  | some (.done score alphaF toHash, pvF, stF) =>
    if score = -INFTY then
      some (scoreMate stF.params.ply isInCheck depth alphaF beta, pvF, stF)
    else
      let stG :=
        if toHash ≠ NULL_MOVE ∧ prevAlpha < alphaF ∧ alphaF < beta then
          let stG := ttAdd B b depth toHash alphaF PV_NODE stF
          if !(isCapture toHash) then addHistory B b color depth toHash stG
          else stG
        else if alphaF ≤ prevAlpha then
          ttAdd B b depth NULL_MOVE alphaF ALL_NODE stF
        else stF
      some (alphaF, pvF, stG)

/-- The per-node context of the `PVS` move loop (values fixed before the loop
starts). -/
structure PvsCtx (β : Type) where
  b : β
  color : Nat
  depth : Int
  beta : Int
  prevAlpha : Int
  isPVNode : Bool
  isInCheck : Bool
  staticEval : Int

/-- The record of all mutually recursive search functions at a given fuel. -/
structure EngineFuns (β : Type) where
  pvs : β → Nat → Int → Int → Int → List Move → SearchState →
    Option (Int × List Move × SearchState)
  pvsLoop : PvsCtx β → List Move → List Int → Nat → Nat → Int → Int → Move →
    List Move → List Move → SearchState →
    Option (PvsLoopOut × List Move × SearchState)
  probe : β → Nat → Int → Int → Int → List Move → SearchState →
    Option (Int × Int × Move × List Move × SearchState)
  gbmfs : β → List Move → Int → SearchState → Option (Int × SearchState)
  gbmfsLoop : β → Nat → Int → List Move → Nat → Int → Int → List Move →
    SearchState → Option (Int × SearchState)
  q : β → Nat → Int → Int → Int → Int → Option Int
  qCapLoop : β → Nat → Int → Int → List Move → List Int → Nat → Int → Int →
    Int → Option QRes
  qPromLoop : β → Nat → Int → List Move → Nat → Int → Int → Int → Option QRes
  qChkLoop : β → Nat → Int → List Move → Nat → Int → Int → Int → Option QRes
  cq : β → Nat → Int → Int → Int → Int → Option Int
  cqLoop : β → Nat → Int → List Move → Nat → Int → Int → Int → Int →
    Option CQRes
  gbmad : β → List Move → Int → SearchState → Option (GbmadOut × SearchState)
  gbmadLoop : β → Nat → Int → List Move → Nat → Int → Int → List Move →
    List Move → SearchState → Option (GbmadOut × SearchState)
  gbm : β → Int → Int → SearchState → Option (Move × SearchState)
  gbmLoop : β → Int → Int → List Move → Move → Bool → Int → SearchState →
    Option (Move × SearchState)

/-- All-`none` record (fuel exhausted). -/
def engineZero (β : Type) : EngineFuns β where
  pvs := fun _ _ _ _ _ _ _ => none
  pvsLoop := fun _ _ _ _ _ _ _ _ _ _ _ => none
  probe := fun _ _ _ _ _ _ _ => none
  gbmfs := fun _ _ _ _ => none
  gbmfsLoop := fun _ _ _ _ _ _ _ _ _ => none
  q := fun _ _ _ _ _ _ => none
  qCapLoop := fun _ _ _ _ _ _ _ _ _ _ => none
  qPromLoop := fun _ _ _ _ _ _ _ _ => none
  qChkLoop := fun _ _ _ _ _ _ _ _ => none
  cq := fun _ _ _ _ _ _ => none
  cqLoop := fun _ _ _ _ _ _ _ _ _ => none
  gbmad := fun _ _ _ _ => none
  gbmadLoop := fun _ _ _ _ _ _ _ _ _ _ => none
  gbm := fun _ _ _ _ => none
  gbmLoop := fun _ _ _ _ _ _ _ _ => none

/-- The search engine of `search.cpp` at a given fuel.  `tmo polls limit`
abstracts the clock comparison `getTimeElapsed(startTime) * ONE_SECOND >
timeLimit` at the `polls`-th clock read (it also covers an external stop
request); `softo d` abstracts the driver's soft-time comparison
`timeSoFar * ONE_SECOND < value * TIME_FACTOR` read after the iteration at
root depth `d`. -/
def engine {β : Type} (B : BoardOps β) (tmo : Nat → Nat → Bool)
    (softo : Nat → Bool) : Nat → EngineFuns β
  | 0 => engineZero β
  | fuel + 1 =>
    let E := engine B tmo softo fuel
    { pvs := fun b color depth alpha beta pvIn st =>
        -- search.cpp lines 276–561
        if depth ≤ 0 then
          match E.q b color 0 alpha beta st.params.ply with
          | none => none
          | some v => some (v, [], st)
        else if B.isDraw b then
          some (if 0 ≥ beta then beta else if 0 > alpha then 0 else alpha, pvIn, st)
        else
          let prevAlpha := alpha
          let isPVNode : Bool := decide (beta - alpha > 1)
          let isInCheck := B.isInCheck b color
          match E.probe b color depth alpha beta pvIn st with
          | none => none
          | some (hashScore, alpha1, hashed, pv1, st1) =>
            if hashScore ≠ -INFTY then some (hashScore, pv1, st1)
            else
              let alpha := alpha1
              let staticEval := if color = WHITE then B.evaluate b else -B.evaluate b
              let nullStep : Option (Option Int × List Move × SearchState) :=
                if nullMoveGuard depth isPVNode st1.params.nullMoveCount
                    staticEval beta isInCheck (B.getNonPawnMaterial b color) then
                  let stN := bumpPly { st1 with params :=
                    { st1.params with nullMoveCount := st1.params.nullMoveCount + 1 } }
                  match E.pvs (B.doNullMove b) (color ^^^ 1)
                      (depth - 1 - nullMoveReduction depth staticEval beta)
                      (-beta) (-alpha) [] stN with
                  | none => none
                  | some (v, line1, st2) =>
                    let st3 := dropPly st2
                    let st3 := { st3 with params :=
                      { st3.params with nullMoveCount := st3.params.nullMoveCount - 1 } }
                    if -v ≥ beta then some (some beta, line1, st3)
                    else some (none, line1, st3)
                else some (none, [], st1)
              match nullStep with
              | none => none
              | some (some r, _, st3) => some (r, pv1, st3)
              | some (none, line1, st3) =>
                if !isPVNode && !isInCheck
                    && (decide (depth ≤ 2) && decide
                        (staticEval - REVERSE_FUTILITY_MARGIN.getD depth.toNat 0 ≥ beta))
                    && B.getNonPawnMaterial b color then
                  some (beta, pv1, st3)
                else
                  let legalMoves := if isInCheck then B.getPseudoLegalCheckEscapes b color
                                    else B.getAllPseudoLegalMoves b color
                  if legalMoves.length = 0 then
                    some (scoreMate st3.params.ply isInCheck depth alpha beta, pv1, st3)
                  else
                    let legalMoves := if hashed ≠ NULL_MOVE then legalMoves.erase hashed
                                      else legalMoves
                    let ctx : PvsCtx β :=
                      ⟨b, color, depth, beta, prevAlpha, isPVNode, isInCheck, staticEval⟩
                    let ms0 : Nat := if hashed = NULL_MOVE then 0 else 1
                    let finish := pvsFinish B b color depth beta prevAlpha isInCheck
                    if decide (depth ≥ 3) || isPVNode then
                      let scores := scoreMovesHigh B b color st3.params legalMoves
                      if decide (depth ≥ 5) && (hashed == NULL_MOVE) then
                        match E.gbmfs b legalMoves (IID_DEPTHS.getD depth.toNat 0) st3 with
                        | none => none
                        | some (bestIndex, st4) =>
                          if bestIndex = -1 then
                            some (scoreMate st4.params.ply isInCheck depth alpha beta, pv1, st4)
                          else
                            finish (E.pvsLoop ctx legalMoves
                              (scores.set bestIndex.toNat INFTY) 0 ms0 alpha (-INFTY)
                              NULL_MOVE line1 pv1 st4)
                      else
                        finish (E.pvsLoop ctx legalMoves scores 0 ms0 alpha (-INFTY)
                          NULL_MOVE line1 pv1 st3)
                    else
                      finish (E.pvsLoop ctx legalMoves
                        (scoreMovesLow B b color st3.params legalMoves) 0 ms0 alpha
                        (-INFTY) NULL_MOVE line1 pv1 st3)
      pvsLoop := fun ctx moves scores i ms alpha score toHash line pv st =>
        -- search.cpp lines 447–540
        let nm := nextMove moves scores i
        if nm.1 = NULL_MOVE then some (.done score alpha toHash, pv, st)
        else
          let m := nm.1
          let stopNow := st.isStop || tmo st.polls st.params.timeLimit
          let st := { st with isStop := stopNow, polls := st.polls + 1 }
          if stopNow then some (.abort, pv, st)
          else if futilityGuard ctx.isPVNode ctx.depth ctx.staticEval alpha
              ctx.isInCheck m (B.isCheckMove ctx.b m ctx.color) then
            E.pvsLoop ctx nm.2.1 nm.2.2 (i + 1) ms alpha alpha toHash line pv st
          else
            match B.doPseudoLegalMove ctx.b m ctx.color with
            | none => E.pvsLoop ctx nm.2.1 nm.2.2 (i + 1) ms alpha score toHash line pv st
            | some copy =>
              let reduction :=
                if lmrGuard ctx.isPVNode ctx.isInCheck m ctx.depth ms alpha
                    ctx.prevAlpha (st.params.killers st.params.ply).1
                    (st.params.killers st.params.ply).2
                    (B.isInCheck copy (ctx.color ^^^ 1)) then
                  lmrReduction ctx.depth ms
                else 0
              let searchRes : Option (Int × List Move × SearchState) :=
                if ms ≠ 0 then
                  match E.pvs copy (ctx.color ^^^ 1) (ctx.depth - 1 - reduction)
                      (-alpha - 1) (-alpha) line (bumpPly st) with
                  | none => none
                  | some (v1, line1, st1) =>
                    let st1 := dropPly st1
                    if alpha < -v1 ∧ -v1 < ctx.beta then
                      match E.pvs copy (ctx.color ^^^ 1) (ctx.depth - 1)
                          (-ctx.beta) (-alpha) line1 (bumpPly st1) with
                      | none => none
                      | some (v2, line2, st2) => some (-v2, line2, dropPly st2)
                    else some (-v1, line1, st1)
                else
                  match E.pvs copy (ctx.color ^^^ 1) (ctx.depth - 1)
                      (-ctx.beta) (-alpha) line (bumpPly st) with
                  | none => none
                  | some (v, line1, st1) => some (-v, line1, dropPly st1)
              match searchRes with
              | none => none
              | some (newScore, line1, st1) =>
                if newScore ≥ ctx.beta then
                  let st2 := ttAdd B ctx.b ctx.depth m ctx.beta CUT_NODE st1
                  let st2 := if !(isCapture m) then
                      addHistory B ctx.b ctx.color ctx.depth m (recordKiller m st2)
                    else st2
                  some (.cutoff, pv, st2)
                else if newScore > alpha then
                  E.pvsLoop ctx nm.2.1 nm.2.2 (i + 1) (ms + 1) newScore newScore m
                    line1 (changePV m line1) st1
                else
                  E.pvsLoop ctx nm.2.1 nm.2.2 (i + 1) (ms + 1) alpha newScore toHash
                    line1 pv st1
      probe := fun b color depth alpha beta pv st =>
        -- search.cpp lines 565–627
        match st.tt (B.fingerprint b) with
        | none => some (-INFTY, alpha, NULL_MOVE, pv, st)
        | some entry =>
          if entry.nodeType = ALL_NODE then
            if entry.depth ≥ depth ∧ entry.score ≤ alpha then
              some (alpha, alpha, NULL_MOVE, pv, st)
            else some (-INFTY, alpha, NULL_MOVE, pv, st)
          else
            let hashed := entry.m
            if entry.depth ≥ depth ∧ entry.nodeType = CUT_NODE ∧ entry.score ≥ beta then
              some (beta, alpha, hashed, pv, st)
            else
              match B.doHashMove b hashed color with
              | some copy =>
                match E.pvs copy (color ^^^ 1) (depth - 1) (-beta) (-alpha) []
                    (bumpPly st) with
                | none => none
                | some (v, line1, st1) =>
                  let st1 := dropPly st1
                  if -v ≥ beta then some (beta, alpha, hashed, pv, st1)
                  else if -v > alpha then
                    some (-INFTY, -v, hashed, changePV hashed line1, st1)
                  else some (-INFTY, alpha, hashed, pv, st1)
              | none =>
                some (-INFTY, alpha, NULL_MOVE, pv,
                  { st with diags := entry.m :: st.diags })
      gbmfs := fun b moves depth st =>
        -- search.cpp lines 232–268
        E.gbmfsLoop b (B.getPlayerToMove b) depth moves 0 (-1) (-MATE_SCORE) [] st
      gbmfsLoop := fun b color depth moves i tempMove alpha line st =>
        if i < moves.length then
          let m := moves.getD i NULL_MOVE
          match B.doPseudoLegalMove b m color with
          | none => E.gbmfsLoop b color depth moves (i + 1) tempMove alpha line st
          | some copy =>
            let searchRes : Option (Int × List Move × SearchState) :=
              if i ≠ 0 then
                match E.pvs copy (color ^^^ 1) (depth - 1) (-alpha - 1) (-alpha)
                    line (bumpPly st) with
                | none => none
                | some (v1, line1, st1) =>
                  let st1 := dropPly st1
                  if alpha < -v1 ∧ -v1 < MATE_SCORE then
                    match E.pvs copy (color ^^^ 1) (depth - 1) (-MATE_SCORE)
                        (-alpha) line1 (bumpPly st1) with
                    | none => none
                    | some (v2, line2, st2) => some (-v2, line2, dropPly st2)
                  else some (-v1, line1, st1)
              else
                match E.pvs copy (color ^^^ 1) (depth - 1) (-MATE_SCORE) (-alpha)
                    line (bumpPly st) with
                | none => none
                | some (v, line1, st1) => some (-v, line1, dropPly st1)
            match searchRes with
            | none => none
            | some (score, line1, st1) =>
              if score > alpha then
                E.gbmfsLoop b color depth moves (i + 1) (i : Int) score line1 st1
              else
                E.gbmfsLoop b color depth moves (i + 1) tempMove alpha line1 st1
        else some (tempMove, st)
      q := fun b color plies alpha beta ply =>
        -- search.cpp lines 654–780
        if B.isInCheck b color then E.cq b color plies alpha beta ply
        else
          let standPat0 := if color = WHITE then B.evaluateMaterial b
                           else -B.evaluateMaterial b
          if standPat0 ≥ beta + MAX_POS_SCORE then some beta
          else if standPat0 < alpha - 2 * MAX_POS_SCORE - QUEEN_VALUE then some alpha
          else
            let standPat := standPat0 +
              (if color = WHITE then B.evaluatePositional b else -B.evaluatePositional b)
            let alpha := if alpha < standPat then standPat else alpha
            if standPat ≥ beta then some beta
            else if standPat < alpha - MAX_POS_SCORE - QUEEN_VALUE then some alpha
            else
              let legalCaptures := B.getPseudoLegalCaptures b color false
              let scores := legalCaptures.map fun m => B.getMVVLVAScore b color m
              match E.qCapLoop b color plies standPat legalCaptures scores 0 alpha
                  beta ply with
              | none => none
              | some .betaCut => some beta
              | some (.cont alpha1) =>
                match E.qPromLoop b color plies (B.getPseudoLegalPromotions b color)
                    0 alpha1 beta ply with
                | none => none
                | some .betaCut => some beta
                | some (.cont alpha2) =>
                  if plies ≤ 0 then
                    match E.qChkLoop b color plies (B.getPseudoLegalChecks b color)
                        0 alpha2 beta ply with
                    | none => none
                    | some .betaCut => some beta
                    | some (.cont alpha3) => some alpha3
                  else some alpha2
      qCapLoop := fun b color plies standPat moves scores i alpha beta ply =>
        let nm := nextMove moves scores i
        if nm.1 = NULL_MOVE then some (.cont alpha)
        else
          let m := nm.1
          if standPat + B.valueOfPiece b
              (B.getPieceOnSquare b (color ^^^ 1) (getEndSq m)) < alpha - MAX_POS_SCORE then
            E.qCapLoop b color plies standPat nm.2.1 nm.2.2 (i + 1) alpha beta ply
          else if B.getExchangeScore b color m < 0
              ∧ B.getSEE b color (getEndSq m) < -MAX_POS_SCORE then
            E.qCapLoop b color plies standPat nm.2.1 nm.2.2 (i + 1) alpha beta ply
          else
            match B.doPseudoLegalMove b m color with
            | none => E.qCapLoop b color plies standPat nm.2.1 nm.2.2 (i + 1) alpha beta ply
            | some copy =>
              match E.q copy (color ^^^ 1) (plies + 1) (-beta) (-alpha) ply with
              | none => none
              | some v =>
                if -v ≥ beta then some .betaCut
                else if -v > alpha then
                  E.qCapLoop b color plies standPat nm.2.1 nm.2.2 (i + 1) (-v) beta ply
                else
                  E.qCapLoop b color plies standPat nm.2.1 nm.2.2 (i + 1) alpha beta ply
      qPromLoop := fun b color plies moves i alpha beta ply =>
        if i < moves.length then
          let m := moves.getD i NULL_MOVE
          if B.getSEE b color (getEndSq m) < 0 then
            E.qPromLoop b color plies moves (i + 1) alpha beta ply
          else
            match B.doPseudoLegalMove b m color with
            | none => E.qPromLoop b color plies moves (i + 1) alpha beta ply
            | some copy =>
              match E.q copy (color ^^^ 1) (plies + 1) (-beta) (-alpha) ply with
              | none => none
              | some v =>
                if -v ≥ beta then some .betaCut
                else if -v > alpha then
                  E.qPromLoop b color plies moves (i + 1) (-v) beta ply
                else
                  E.qPromLoop b color plies moves (i + 1) alpha beta ply
        else some (.cont alpha)
      qChkLoop := fun b color plies moves i alpha beta ply =>
        if i < moves.length then
          let m := moves.getD i NULL_MOVE
          match B.doPseudoLegalMove b m color with
          | none => E.qChkLoop b color plies moves (i + 1) alpha beta ply
          | some copy =>
            match E.cq copy (color ^^^ 1) (plies + 1) (-beta) (-alpha) ply with
            | none => none
            | some v =>
              if -v ≥ beta then some .betaCut
              else if -v > alpha then
                E.qChkLoop b color plies moves (i + 1) (-v) beta ply
              else
                E.qChkLoop b color plies moves (i + 1) alpha beta ply
        else some (.cont alpha)
      cq := fun b color plies alpha beta ply =>
        -- search.cpp lines 786–826
        match E.cqLoop b color plies (B.getPseudoLegalCheckEscapes b color) 0
            (-INFTY) alpha beta ply with
        | none => none
        | some .betaCut => some beta
        | some (.done score alpha1) =>
          if score = -INFTY then
            let score2 := -MATE_SCORE + ply + plies
            if score2 ≥ beta then some beta
            else if score2 > alpha1 then some score2
            else some alpha1
          else some alpha1
      cqLoop := fun b color plies moves i score alpha beta ply =>
        if i < moves.length then
          let m := moves.getD i NULL_MOVE
          match B.doPseudoLegalMove b m color with
          | none => E.cqLoop b color plies moves (i + 1) score alpha beta ply
          | some copy =>
            match E.q copy (color ^^^ 1) (plies + 1) (-beta) (-alpha) ply with
            | none => none
            | some v =>
              if -v ≥ beta then some .betaCut
              else if -v > alpha then
                E.cqLoop b color plies moves (i + 1) (-v) (-v) beta ply
              else
                E.cqLoop b color plies moves (i + 1) (-v) alpha beta ply
        else some (.done score alpha)
      gbmad := fun b legalMoves depth st =>
        -- search.cpp lines 179–229
        let st := { st with params := resetParams st.params }
        E.gbmadLoop b (B.getPlayerToMove b) depth legalMoves 0 (-1) (-MATE_SCORE)
          [] [] st
      gbmadLoop := fun b color depth moves i tempMove alpha line pv st =>
        if i < moves.length then
          if st.isStop then some (⟨tempMove, none, none, pv⟩, st)
          else
            let m := moves.getD i NULL_MOVE
            let copy := B.doMove b m color
            let searchRes : Option (Int × List Move × SearchState) :=
              if i ≠ 0 then
                match E.pvs copy (color ^^^ 1) (depth - 1) (-alpha - 1) (-alpha)
                    line (bumpPly st) with
                | none => none
                | some (v1, line1, st1) =>
                  let st1 := dropPly st1
                  if alpha < -v1 ∧ -v1 < MATE_SCORE then
                    match E.pvs copy (color ^^^ 1) (depth - 1) (-MATE_SCORE)
                        (-alpha) line1 (bumpPly st1) with
                    | none => none
                    | some (v2, line2, st2) => some (-v2, line2, dropPly st2)
                  else some (-v1, line1, st1)
              else
                match E.pvs copy (color ^^^ 1) (depth - 1) (-MATE_SCORE) (-alpha)
                    line (bumpPly st) with
                | none => none
                | some (v, line1, st1) => some (-v, line1, dropPly st1)
            match searchRes with
            | none => none
            | some (score, line1, st1) =>
              if score > alpha then
                E.gbmadLoop b color depth moves (i + 1) (i : Int) score line1
                  (changePV m line1) st1
              else
                E.gbmadLoop b color depth moves (i + 1) tempMove alpha line1 pv st1
        else
          some (⟨tempMove, some alpha, some (decide (alpha ≥ MATE_SCORE - MAX_DEPTH)),
            pv⟩, st)
      gbm := fun b mode value st =>
        -- search.cpp lines 128–176
        let st := { st with params :=
          { resetParams st.params with
              rootMoveNumber := B.getMoveNumber b,
              timeLimit := timeLimitFor mode value } }
        let color := B.getPlayerToMove b
        let legalMoves := B.getAllLegalMoves b color
        let bestMove := legalMoves.getD 0 NULL_MOVE
        match E.gbmLoop b mode value legalMoves bestMove false 1 st with
        | none => none
        | some (bm, st1) =>
          some (bm, { st1 with params := resetHistoryTable st1.params, isStop := true })
      gbmLoop := fun b mode value moves bestMove isMateVar rootDepth st =>
        match E.gbmad b moves rootDepth st with
        | none => none
        | some (out, st1) =>
          if out.tempMove = -1 then some (bestMove, st1)
          else
            let moves1 := swapList moves 0 out.tempMove.toNat
            let bestMove1 := moves1.getD 0 NULL_MOVE
            let isMate1 := out.isMate.getD isMateVar
            if isMate1 then some (bestMove1, st1)
            else if continueSearch mode value (softo rootDepth.toNat) (rootDepth + 1) then
              E.gbmLoop b mode value moves1 bestMove1 isMate1 (rootDepth + 1) st1
            else some (bestMove1, st1) }

/-! ### Named wrappers for the engine fields -/

/-- `PVS` from `search.cpp` at the given fuel. -/
def PVS {β : Type} (fuel : Nat) (B : BoardOps β) (tmo : Nat → Nat → Bool)
    (softo : Nat → Bool) (b : β) (color : Nat) (depth alpha beta : Int)
    (pvIn : List Move) (st : SearchState) :
    Option (Int × List Move × SearchState) :=
  (engine B tmo softo fuel).pvs b color depth alpha beta pvIn st

/-- The move loop of `PVS` at the given fuel. -/
def pvsMoveLoop {β : Type} (fuel : Nat) (B : BoardOps β) (tmo : Nat → Nat → Bool)
    (softo : Nat → Bool) (ctx : PvsCtx β) (moves : List Move) (scores : List Int)
    (i ms : Nat) (alpha score : Int) (toHash : Move) (line pv : List Move)
    (st : SearchState) : Option (PvsLoopOut × List Move × SearchState) :=
  (engine B tmo softo fuel).pvsLoop ctx moves scores i ms alpha score toHash line pv st

/-- `probeTT` from `search.cpp` at the given fuel. -/
def probeTT {β : Type} (fuel : Nat) (B : BoardOps β) (tmo : Nat → Nat → Bool)
    (softo : Nat → Bool) (b : β) (color : Nat) (depth alpha beta : Int)
    (pv : List Move) (st : SearchState) :
    Option (Int × Int × Move × List Move × SearchState) :=
  (engine B tmo softo fuel).probe b color depth alpha beta pv st

/-- `getBestMoveForSort` from `search.cpp` at the given fuel. -/
def getBestMoveForSort {β : Type} (fuel : Nat) (B : BoardOps β)
    (tmo : Nat → Nat → Bool) (softo : Nat → Bool) (b : β) (moves : List Move)
    (depth : Int) (st : SearchState) : Option (Int × SearchState) :=
  (engine B tmo softo fuel).gbmfs b moves depth st

/-- `quiescence` from `search.cpp` at the given fuel (pure in the search
state; `ply` is the value of `searchParams.ply`). -/
def quiescence {β : Type} (fuel : Nat) (B : BoardOps β) (tmo : Nat → Nat → Bool)
    (softo : Nat → Bool) (b : β) (color : Nat) (plies alpha beta ply : Int) :
    Option Int :=
  (engine B tmo softo fuel).q b color plies alpha beta ply

/-- `checkQuiescence` from `search.cpp` at the given fuel. -/
def checkQuiescence {β : Type} (fuel : Nat) (B : BoardOps β)
    (tmo : Nat → Nat → Bool) (softo : Nat → Bool) (b : β) (color : Nat)
    (plies alpha beta ply : Int) : Option Int :=
  (engine B tmo softo fuel).cq b color plies alpha beta ply

/-- `getBestMoveAtDepth` from `search.cpp` at the given fuel. -/
def getBestMoveAtDepth {β : Type} (fuel : Nat) (B : BoardOps β)
    (tmo : Nat → Nat → Bool) (softo : Nat → Bool) (b : β)
    (legalMoves : List Move) (depth : Int) (st : SearchState) :
    Option (GbmadOut × SearchState) :=
  (engine B tmo softo fuel).gbmad b legalMoves depth st

/-- `getBestMove` from `search.cpp` at the given fuel. -/
def getBestMove {β : Type} (fuel : Nat) (B : BoardOps β) (tmo : Nat → Nat → Bool)
    (softo : Nat → Bool) (b : β) (mode value : Int) (st : SearchState) :
    Option (Move × SearchState) :=
  (engine B tmo softo fuel).gbm b mode value st

/-! ## Concrete instances used by witnesses and counterexamples -/

/-- The search state at the start of a `go` (fresh parameters, empty
transposition table, stop flag clear). -/
def initState : SearchState where
  params := { ply := 0, nullMoveCount := 0, timeLimit := MAX_TIME,
              killers := fun _ => (NULL_MOVE, NULL_MOVE),
              historyTable := fun _ _ _ => 0, rootMoveNumber := 0 }
  tt := fun _ => none
  isStop := false
  polls := 0
  diags := []

/-- A quiet non-promotion move token. -/
def mQuiet : Move := ⟨8, 16, 0, false⟩

/-- A capture move token. -/
def mCapture : Move := ⟨9, 17, 0, true⟩

/-- The clock oracle of a search that never times out. -/
def tmoNever : Nat → Nat → Bool := fun _ _ => false

/-- A clock oracle whose comparison trips exactly at the `k`-th poll. -/
def tmoAt (k : Nat) : Nat → Nat → Bool := fun p _ => p == k

/-- Soft-time oracle: always within the soft limit. -/
def softAlways : Nat → Bool := fun _ => true

/-- An inert board instance: a single position with no moves of any kind, not
in check, not drawn, evaluation 0. -/
def constOps (β : Type) : BoardOps β where
  getPlayerToMove := fun _ => WHITE
  isDraw := fun _ => false
  isInCheck := fun _ _ => false
  evaluate := fun _ => 0
  evaluateMaterial := fun _ => 0
  evaluatePositional := fun _ => 0
  getNonPawnMaterial := fun _ _ => true
  getAllLegalMoves := fun _ _ => []
  getAllPseudoLegalMoves := fun _ _ => []
  getPseudoLegalCheckEscapes := fun _ _ => []
  getPseudoLegalCaptures := fun _ _ _ => []
  getPseudoLegalPromotions := fun _ _ => []
  getPseudoLegalChecks := fun _ _ => []
  doPseudoLegalMove := fun _ _ _ => none
  doHashMove := fun _ _ _ => none
  doMove := fun b _ _ => b
  doNullMove := fun b => b
  getSEE := fun _ _ _ => 0
  getMVVLVAScore := fun _ _ _ => 0
  getExchangeScore := fun _ _ _ => 0
  isCheckMove := fun _ _ _ => false
  getPieceOnSquare := fun _ _ _ => 0
  valueOfPiece := fun _ _ => 0
  getMoveNumber := fun _ => 1
  fingerprint := fun _ => 0

/-- The inert board over a one-point state space. -/
def trivB : BoardOps Unit := constOps Unit

/-- A board family over `Nat` positions: every position has the single quiet
pseudo-legal (and legal) move `mQuiet` leading to the successor position;
fingerprints are distinct. -/
def chainB : BoardOps Nat :=
  { constOps Nat with
      getAllPseudoLegalMoves := fun _ _ => [mQuiet]
      getAllLegalMoves := fun _ _ => [mQuiet]
      doPseudoLegalMove := fun b _ _ => some (b + 1)
      doMove := fun b _ _ => b + 1
      fingerprint := fun b => b }

/-- A two-point board for the null-move scenario: position `false` (the real
node, evaluation −2, one quiet move) and position `true` (the position after
the null move, a draw). -/
def nullDrawB : BoardOps Bool :=
  { constOps Bool with
      isDraw := fun b => b
      evaluate := fun _ => -2
      getAllPseudoLegalMoves := fun _ _ => [mQuiet]
      doPseudoLegalMove := fun _ _ _ => none
      doNullMove := fun _ => true }

/-- A board family over `Int` positions whose static evaluation is the
position itself and whose single pseudo-legal move is quiet and legal. -/
def evalB : BoardOps Int :=
  { constOps Int with
      evaluate := fun b => b
      getAllPseudoLegalMoves := fun _ _ => [mQuiet]
      doPseudoLegalMove := fun b _ _ => some b }

/-- A board family over `Int` positions whose static evaluation is the
position itself and whose single pseudo-legal move is a capture that fails
the legality check (`doPseudoLegalMove` returns `false`). -/
def illegalB : BoardOps Int :=
  { constOps Int with
      evaluate := fun b => b
      getAllPseudoLegalMoves := fun _ _ => [mCapture]
      doPseudoLegalMove := fun _ _ _ => none }

/-- A search state with stale heuristic data (non-zero ply, a killer, history
credit, a null-move count), used to exercise the per-iteration reset. -/
def dirtyState : SearchState :=
  { initState with params :=
      { initState.params with
          ply := 5, nullMoveCount := 1,
          killers := fun _ => (mQuiet, NULL_MOVE),
          historyTable := fun _ _ _ => 7 } }

/-! ## C4 — `scoreMate` clamps the mate/stalemate score into `[α, β]` -/

/-- The clamping described by the spec (§4.6), stated from the spec's words
for refinement comparison: the raw mate/stalemate score clamped into
`[α, β]`. -/
def scoreMateSpec (ply : Int) (isInCheck : Bool) (alpha beta : Int) : Int :=
  max alpha (min (if isInCheck then -MATE_SCORE + ply else 0) beta)

/-- **C4.** For every call `scoreMate(isInCheck, depth, alpha, beta)` (with
the current search ply read from the search parameters): the pre-clamp score
is `-MATE_SCORE + ply` when in check and `0` otherwise, and the returned
value is that score clamped into `[alpha, beta]` — `beta` if the score is
`≥ beta`, the score itself if it exceeds `alpha`, otherwise `alpha` (for
`alpha ≤ beta` this is exactly `max alpha (min score beta)`). -/
theorem c4_scoreMate_clamps (ply : Int) (isInCheck : Bool) (depth alpha beta : Int)
    (h : alpha ≤ beta) :
    scoreMate ply isInCheck depth alpha beta = scoreMateSpec ply isInCheck alpha beta ∧
    (isInCheck = true →
      scoreMate ply isInCheck depth alpha beta = max alpha (min (-MATE_SCORE + ply) beta)) ∧
    (isInCheck = false →
      scoreMate ply isInCheck depth alpha beta = max alpha (min 0 beta)) := by
  unfold scoreMate scoreMateSpec
  rcases isInCheck <;> simp <;> omega

/-- Witness for C4 at `ply = 3`, `α = -10`, `β = 10`. -/
theorem c4_scoreMate_clamps_witness :
    scoreMate 3 true 5 (-10) 10 = scoreMateSpec 3 true (-10) 10 ∧
    (true = true → scoreMate 3 true 5 (-10) 10 = max (-10) (min (-MATE_SCORE + 3) 10)) ∧
    (true = false → scoreMate 3 true 5 (-10) 10 = max (-10) (min 0 10)) :=
  c4_scoreMate_clamps 3 true 5 (-10) 10 (by decide)

/-! ## C9 — the `MOVETIME` mode is not given `TIME` budget semantics -/

/-- **C9, counterexample.**  The claim says mode `MOVETIME` gets the same
budget semantics as mode `TIME`.  In the code the limit initialisation tests
`mode == TIME` only, so `MOVETIME` gets the `MAX_TIME` sentinel instead of
`MAX_TIME_FACTOR × value = 4 × value`, and the iterative-deepening
continuation predicate is false for `MOVETIME` (both of its disjuncts test
for the other two modes), so the search stops after the first root iteration
even when the soft time check would allow continuing; a full driver run on a
one-move position confirms the sentinel time limit in the final state. -/
theorem c9_movetime_counterexample :
    timeLimitFor MOVETIME 100 = MAX_TIME ∧ timeLimitFor TIME 100 = 400 ∧
    MAX_TIME ≠ 400 ∧
    continueSearch MOVETIME 100 true 2 = false ∧
    continueSearch TIME 100 true 2 = true ∧
    (getBestMove 8 chainB tmoNever softAlways 0 MOVETIME 100 initState).map
        (fun r => (r.1, r.2.params.timeLimit)) = some (mQuiet, MAX_TIME) := by
  decide

/-- **C9, amended.**  When `getBestMove` is invoked with mode `MOVETIME`
(= 4), the driver does not apply `TIME` budget semantics: the time limit is
set to the `MAX_TIME` sentinel (not `MAX_TIME_FACTOR × value`), and the
iterative-deepening continuation predicate is false, whatever the budget,
the soft-time comparison and the root depth, so exactly one root iteration
runs. -/
theorem c9_movetime_amended (value : Int) (softOK : Bool) (rootDepth : Int) :
    timeLimitFor MOVETIME value = MAX_TIME ∧
    continueSearch MOVETIME value softOK rootDepth = false := by
  refine ⟨?_, ?_⟩ <;>
    simp [timeLimitFor, continueSearch, MOVETIME, TIME, DEPTH]

/-! ## C10 — `getBestMoveAtDepth` resets killers/history at every iteration -/

/-- `getBestMoveAtDepth` begins by resetting the search parameters (the
source's `searchParams.reset()` at line 182); this equation is definitional. -/
theorem getBestMoveAtDepth_resets {β : Type} (f : Nat) (B : BoardOps β)
    (tmo : Nat → Nat → Bool) (softo : Nat → Bool) (b : β)
    (legalMoves : List Move) (depth : Int) (st : SearchState) :
    getBestMoveAtDepth (f + 1) B tmo softo b legalMoves depth st
      = (engine B tmo softo f).gbmadLoop b (B.getPlayerToMove b) depth legalMoves
          0 (-1) (-MATE_SCORE) [] []
          { st with params := resetParams st.params } := rfl

/-- **C10.**  At the start of every root-depth iteration,
`getBestMoveAtDepth` resets the search parameters: `ply` and the null-move
counter become 0, both killer slots of every ply become the null move, and
the whole history table becomes 0.  Consequently the result of
`getBestMoveAtDepth` is entirely independent of the killer/history/ply/
null-move-count data left by a previous iteration: two states that agree on
everything else (transposition table, stop flag, clock polls, diagnostics,
root move number, time limit) produce identical results. -/
theorem c10_reset_per_iteration {β : Type} (fuel : Nat) (B : BoardOps β)
    (tmo : Nat → Nat → Bool) (softo : Nat → Bool) (b : β)
    (legalMoves : List Move) (depth : Int) (st1 st2 : SearchState)
    (htt : st1.tt = st2.tt) (hstop : st1.isStop = st2.isStop)
    (hpolls : st1.polls = st2.polls) (hdiags : st1.diags = st2.diags)
    (hrmn : st1.params.rootMoveNumber = st2.params.rootMoveNumber)
    (htl : st1.params.timeLimit = st2.params.timeLimit) :
    ((resetParams st1.params).ply = 0 ∧ (resetParams st1.params).nullMoveCount = 0 ∧
      (∀ i, (resetParams st1.params).killers i = (NULL_MOVE, NULL_MOVE)) ∧
      (∀ c pc sq, (resetParams st1.params).historyTable c pc sq = 0)) ∧
    getBestMoveAtDepth fuel B tmo softo b legalMoves depth st1
      = getBestMoveAtDepth fuel B tmo softo b legalMoves depth st2 := by
  refine ⟨⟨rfl, rfl, fun _ => rfl, fun _ _ _ => rfl⟩, ?_⟩
  have hstate : ({ st1 with params := resetParams st1.params } : SearchState)
      = { st2 with params := resetParams st2.params } := by
    obtain ⟨p1, tt1, s1, po1, d1⟩ := st1
    obtain ⟨p2, tt2, s2, po2, d2⟩ := st2
    obtain ⟨a1, b1, c1, d1', e1, f1⟩ := p1
    obtain ⟨a2, b2, c2, d2', e2, f2⟩ := p2
    simp_all [resetParams]
  cases fuel with
  | zero => rfl
  | succ f =>
    rw [getBestMoveAtDepth_resets, getBestMoveAtDepth_resets, hstate]

/-- Witness for C10: an initial state and a state with stale killers,
history, ply and null-move count give the same `getBestMoveAtDepth` result. -/
theorem c10_reset_per_iteration_witness :
    (((resetParams initState.params).ply = 0 ∧
      (resetParams initState.params).nullMoveCount = 0 ∧
      (∀ i, (resetParams initState.params).killers i = (NULL_MOVE, NULL_MOVE)) ∧
      (∀ c pc sq, (resetParams initState.params).historyTable c pc sq = 0)) ∧
    getBestMoveAtDepth 3 trivB tmoNever softAlways () [] 1 initState
      = getBestMoveAtDepth 3 trivB tmoNever softAlways () [] 1 dirtyState) :=
  c10_reset_per_iteration 3 trivB tmoNever softAlways () [] 1 initState dirtyState
    rfl rfl rfl rfl rfl rfl

/-! ## C8 — `nextMove` performs one stable selection-sort pass -/

/-- Invariant of the `selectBest` scan: the running best stays within bounds,
equals its score, only grows, dominates the scanned range, and the earliest
maximum wins (a later index replaces the best only on a strictly greater
score). -/
theorem selectBestAux_spec (scores : List Int) (l : List Int) : ∀ (i bi : Nat) (bs : Int),
    scores.drop i = l → bi < scores.length → bs = scores.getD bi 0 → bi < i →
    (selectBestAux l i bi bs).2 = scores.getD (selectBestAux l i bi bs).1 0 ∧
    (selectBestAux l i bi bs).1 < scores.length ∧
    ((selectBestAux l i bi bs).1 = bi ∨ i ≤ (selectBestAux l i bi bs).1) ∧
    bs ≤ (selectBestAux l i bi bs).2 ∧
    (∀ j, i ≤ j → j < scores.length → scores.getD j 0 ≤ (selectBestAux l i bi bs).2) ∧
    (∀ j, i ≤ j → j < (selectBestAux l i bi bs).1 →
      scores.getD j 0 < (selectBestAux l i bi bs).2) ∧
    ((selectBestAux l i bi bs).1 ≠ bi → bs < (selectBestAux l i bi bs).2) := by
  induction l with
  | nil =>
    intro i bi bs hl hbd hbs hlt
    have hi : scores.length ≤ i := by
      by_contra hcon
      rw [List.drop_eq_getElem_cons (by omega)] at hl
      exact List.cons_ne_nil _ _ hl
    have hfst : (selectBestAux [] i bi bs).1 = bi := rfl
    refine ⟨hbs, hbd, Or.inl rfl, le_refl _, ?_, ?_, ?_⟩
    · intro j hj1 hj2; omega
    · intro j hj1 hj2; omega
    · intro hne; exact absurd rfl hne
  | cons s rest ih =>
    intro i bi bs hl hbd hbs hlt
    have hi : i < scores.length := by
      by_contra hcon
      rw [List.drop_eq_nil_of_le (by omega)] at hl
      exact List.cons_ne_nil _ _ hl.symm
    rw [List.drop_eq_getElem_cons hi] at hl
    have hs : s = scores.getD i 0 := by
      rw [List.getD_eq_getElem _ _ hi]
      exact ((List.cons.injEq _ _ _ _).mp hl).1.symm
    have hrest : scores.drop (i + 1) = rest := ((List.cons.injEq _ _ _ _).mp hl).2
    simp only [selectBestAux]
    by_cases hgt : s > bs
    · rw [if_pos hgt]
      obtain ⟨e1, e2, e3, e4, e5, e6, e7⟩ := ih (i + 1) i s hrest hi hs (by omega)
      refine ⟨e1, e2, ?_, by omega, ?_, ?_, by omega⟩
      · rcases e3 with h' | h' <;> omega
      · intro j hj1 hj2
        rcases Nat.eq_or_lt_of_le hj1 with rfl | hj1'
        · rw [← hs]; omega
        · exact e5 j hj1' hj2
      · intro j hj1 hj2
        rcases Nat.eq_or_lt_of_le hj1 with rfl | hj1'
        · have hne : (selectBestAux rest (i + 1) i s).1 ≠ i := by omega
          rw [← hs]
          exact e7 hne
        · exact e6 j hj1' hj2
    · rw [if_neg hgt]
      obtain ⟨e1, e2, e3, e4, e5, e6, e7⟩ := ih (i + 1) bi bs hrest hbd hbs (by omega)
      refine ⟨e1, e2, ?_, e4, ?_, ?_, e7⟩
      · rcases e3 with h' | h' <;> omega
      · intro j hj1 hj2
        rcases Nat.eq_or_lt_of_le hj1 with rfl | hj1'
        · rw [← hs]; omega
        · exact e5 j hj1' hj2
      · intro j hj1 hj2
        rcases Nat.eq_or_lt_of_le hj1 with rfl | hj1'
        · rw [← hs]
          by_cases hbieq : (selectBestAux rest (i + 1) bi bs).1 = bi
          · omega
          · have := e7 hbieq
            omega
        · exact e6 j hj1' hj2

/-- The `selectBest` invariant at the standard entry point. -/
theorem selectBest_spec (scores : List Int) (i bi : Nat) (bs : Int)
    (hbd : bi < scores.length) (hbs : bs = scores.getD bi 0) (hlt : bi < i) :
    (selectBest scores i bi bs).2 = scores.getD (selectBest scores i bi bs).1 0 ∧
    (selectBest scores i bi bs).1 < scores.length ∧
    ((selectBest scores i bi bs).1 = bi ∨ i ≤ (selectBest scores i bi bs).1) ∧
    bs ≤ (selectBest scores i bi bs).2 ∧
    (∀ j, i ≤ j → j < scores.length → scores.getD j 0 ≤ (selectBest scores i bi bs).2) ∧
    (∀ j, i ≤ j → j < (selectBest scores i bi bs).1 →
      scores.getD j 0 < (selectBest scores i bi bs).2) ∧
    ((selectBest scores i bi bs).1 ≠ bi → bs < (selectBest scores i bi bs).2) :=
  selectBestAux_spec scores (scores.drop i) i bi bs rfl hbd hbs hlt

/-- `nextMove` below the end of the list, with the `let` unfolded. -/
theorem nextMove_eq_of_lt (moves : List Move) (scores : List Int) (index : Nat)
    (h : index < moves.length) :
    nextMove moves scores index =
      (moves.getD (selectBest scores (index + 1) index (scores.getD index 0)).1
         NULL_MOVE,
       swapList moves (selectBest scores (index + 1) index (scores.getD index 0)).1
         index,
       swapList scores (selectBest scores (index + 1) index (scores.getD index 0)).1
         index) := by
  unfold nextMove
  rw [if_neg (by omega)]

/-- What C8 asserts of one `nextMove` call.  Writing `bi` for the index the
scan selects: the null move comes back iff the index is past the end;
otherwise the move at `bi` comes back, both lists are swapped at
`(bi, index)`, `bi` carries the maximum score of positions
`index .. size-1`, and every earlier position in that range scores strictly
less (the earliest maximum wins, which is the stability that keeps the two
killers, scored `0` and `-1`, in relative order across successive calls). -/
def NextMoveSpec (moves : List Move) (scores : List Int) (index : Nat) : Prop :=
  ((nextMove moves scores index).1 = NULL_MOVE ↔ moves.length ≤ index) ∧
  (index < moves.length →
    (index ≤ (selectBest scores (index + 1) index (scores.getD index 0)).1 ∧
     (selectBest scores (index + 1) index (scores.getD index 0)).1 < moves.length ∧
     (nextMove moves scores index).1
       = moves.getD (selectBest scores (index + 1) index (scores.getD index 0)).1
           NULL_MOVE ∧
     (nextMove moves scores index).2.1
       = swapList moves (selectBest scores (index + 1) index (scores.getD index 0)).1
           index ∧
     (nextMove moves scores index).2.2
       = swapList scores (selectBest scores (index + 1) index (scores.getD index 0)).1
           index ∧
     (∀ j, index ≤ j → j < moves.length →
       scores.getD j 0
         ≤ scores.getD (selectBest scores (index + 1) index (scores.getD index 0)).1 0) ∧
     (∀ j, index ≤ j → j < (selectBest scores (index + 1) index (scores.getD index 0)).1 →
       scores.getD j 0
         < scores.getD (selectBest scores (index + 1) index (scores.getD index 0)).1 0)))

/-- **C8.**  For every move list with a parallel score list and an index:
`nextMove` returns the null move iff the index is past the end (move lists
never contain the null move); otherwise it swaps the maximum-scored move
among positions `index .. size-1` into position `index` in both lists and
returns that move, picking the smallest position among equal maximal
scores. -/
theorem c8_nextMove (moves : List Move) (scores : List Int) (index : Nat)
    (hlen : scores.length = moves.length) (hnn : NULL_MOVE ∉ moves) :
    NextMoveSpec moves scores index := by
  unfold NextMoveSpec
  by_cases hidx : index < moves.length
  · obtain ⟨e1, e2, e3, e4, e5, e6, e7⟩ :=
      selectBest_spec scores (index + 1) index (scores.getD index 0)
        (by omega) rfl (Nat.lt_succ_self index)
    constructor
    · constructor
      · intro hnm
        exfalso
        rw [nextMove_eq_of_lt moves scores index hidx] at hnm
        have hnm' : moves.getD (selectBest scores (index + 1) index
            (scores.getD index 0)).1 NULL_MOVE = NULL_MOVE := hnm
        have hb : (selectBest scores (index + 1) index (scores.getD index 0)).1
            < moves.length := by omega
        have hmem : moves.getD (selectBest scores (index + 1) index (scores.getD index 0)).1
            NULL_MOVE ∈ moves := by
          rw [List.getD_eq_getElem _ _ hb]
          exact List.getElem_mem hb
        rw [hnm'] at hmem
        exact hnn hmem
      · intro h; omega
    · intro _
      refine ⟨by rcases e3 with h | h <;> omega, by omega,
        by rw [nextMove_eq_of_lt moves scores index hidx],
        by rw [nextMove_eq_of_lt moves scores index hidx],
        by rw [nextMove_eq_of_lt moves scores index hidx], ?_, ?_⟩
      · intro j hj1 hj2
        rcases Nat.eq_or_lt_of_le hj1 with rfl | hj1'
        · rw [← e1]; exact e4
        · rw [← e1]; exact e5 j hj1' (by omega)
      · intro j hj1 hj2
        rcases Nat.eq_or_lt_of_le hj1 with rfl | hj1'
        · rw [← e1]
          have hne : (selectBest scores (index + 1) index (scores.getD index 0)).1
              ≠ index := by omega
          exact e7 hne
        · rw [← e1]; exact e6 j hj1' hj2
  · constructor
    · unfold nextMove
      rw [if_pos (by omega)]
      exact ⟨fun _ => by omega, fun _ => rfl⟩
    · intro h; omega

/-- Witness for C8 on `moves = [a, b, c]`, `scores = [1, 3, 3]`, `index = 0`:
the earliest maximal score (position 1) is selected and swapped to the
front. -/
theorem c8_nextMove_witness :
    NextMoveSpec [mQuiet, mCapture, ⟨1, 2, 0, false⟩] [1, 3, 3] 0 ∧
    (nextMove [mQuiet, mCapture, ⟨1, 2, 0, false⟩] [1, 3, 3] 0).1 = mCapture :=
  ⟨c8_nextMove [mQuiet, mCapture, ⟨1, 2, 0, false⟩] [1, 3, 3] 0 (by decide) (by decide),
   by decide⟩

/-! ## C6 — the `probeTT` contract -/

/-- **C6.**  For every `probeTT` call that finds a matching entry `e`:

* an `ALL` entry with `e.depth ≥ depth` and `e.score ≤ alpha` returns `alpha`
  (state untouched, no hash move extracted);
* a `CUT` entry with `e.depth ≥ depth` and `e.score ≥ beta` returns `beta`
  (the entry's move is extracted as the hash move);
* a `PV` entry's exact score is never returned as a cutoff: the result of the
  probe on a `PV` entry is either the `-INFTY` "no cutoff" sentinel or `beta`
  from searching the hash move (the exact-score return is compiled out in the
  source);
* if the stored move is illegal on the current position (Type-1 collision),
  the hash move is discarded (`NULL_MOVE` is reported), a diagnostic is
  appended to the error log, and no score from the entry is used (the
  `-INFTY` sentinel is returned and `alpha` is unchanged). -/
theorem c6_probeTT {β : Type} (fuel : Nat) (B : BoardOps β)
    (tmo : Nat → Nat → Bool) (softo : Nat → Bool) (b : β) (color : Nat)
    (depth alpha beta : Int) (pv : List Move) (st : SearchState) (e : HashEntry)
    (he : st.tt (B.fingerprint b) = some e) :
    (e.nodeType = ALL_NODE → e.depth ≥ depth → e.score ≤ alpha →
      probeTT (fuel + 1) B tmo softo b color depth alpha beta pv st
        = some (alpha, alpha, NULL_MOVE, pv, st)) ∧
    (e.nodeType = CUT_NODE → e.depth ≥ depth → e.score ≥ beta →
      probeTT (fuel + 1) B tmo softo b color depth alpha beta pv st
        = some (beta, alpha, e.m, pv, st)) ∧
    (e.nodeType = PV_NODE → ∀ r,
      probeTT (fuel + 1) B tmo softo b color depth alpha beta pv st = some r →
      r.1 = -INFTY ∨ r.1 = beta) ∧
    (e.nodeType ≠ ALL_NODE →
      ¬(e.depth ≥ depth ∧ e.nodeType = CUT_NODE ∧ e.score ≥ beta) →
      B.doHashMove b e.m color = none →
      probeTT (fuel + 1) B tmo softo b color depth alpha beta pv st
        = some (-INFTY, alpha, NULL_MOVE, pv, { st with diags := e.m :: st.diags })) := by
  refine ⟨?_, ?_, ?_, ?_⟩
  · intro hAll hdep hsc
    simp only [probeTT, engine, he]
    rw [if_pos hAll, if_pos ⟨hdep, hsc⟩]
  · intro hCut hdep hsc
    simp only [probeTT, engine, he]
    rw [if_neg (by rw [hCut]; decide), if_pos ⟨hdep, hCut, hsc⟩]
  · intro hPV r hr
    simp only [probeTT, engine, he] at hr
    rw [if_neg (by rw [hPV]; decide)] at hr
    rw [if_neg (by rw [hPV]; exact fun h => by simp [PV_NODE, CUT_NODE] at h)] at hr
    split at hr
    · split at hr
      · exact absurd hr (by simp)
      · split at hr
        · cases hr; right; rfl
        · split at hr
          · cases hr; left; rfl
          · cases hr; left; rfl
    · cases hr; left; rfl
  · intro hne hnc hhm
    simp only [probeTT, engine, he]
    rw [if_neg hne, if_neg hnc, hhm]

/-- A TT entry typed `ALL`. -/
def eALL : HashEntry := ⟨mQuiet, -50, 5, ALL_NODE, 0⟩

/-- A TT entry typed `CUT`. -/
def eCUT : HashEntry := ⟨mQuiet, 99, 5, CUT_NODE, 0⟩

/-- A TT entry typed `PV`. -/
def ePV : HashEntry := ⟨mQuiet, 7, 5, PV_NODE, 0⟩

/-- The fresh search state with a single TT entry at fingerprint 0. -/
def ttWith (e : HashEntry) : SearchState :=
  { initState with tt := fun k => if k = 0 then some e else none }

/-- Witness for C6 on the inert board (fingerprint 0, `doHashMove` illegal):
the `ALL` upper-bound cutoff, the `CUT` lower-bound cutoff, and the Type-1
discard with its diagnostic. -/
theorem c6_probeTT_witness :
    probeTT 2 trivB tmoNever softAlways () 0 3 0 10 [] (ttWith eALL)
      = some (0, 0, NULL_MOVE, [], ttWith eALL) ∧
    probeTT 2 trivB tmoNever softAlways () 0 3 0 10 [] (ttWith eCUT)
      = some (10, 0, eCUT.m, [], ttWith eCUT) ∧
    probeTT 2 trivB tmoNever softAlways () 0 3 0 10 [] (ttWith ePV)
      = some (-INFTY, 0, NULL_MOVE, [],
          { ttWith ePV with diags := ePV.m :: (ttWith ePV).diags }) :=
  ⟨(c6_probeTT 1 trivB tmoNever softAlways () 0 3 0 10 [] (ttWith eALL) eALL rfl).1
      (by decide) (by decide) (by decide),
   (c6_probeTT 1 trivB tmoNever softAlways () 0 3 0 10 [] (ttWith eCUT) eCUT rfl).2.1
      (by decide) (by decide) (by decide),
   (c6_probeTT 1 trivB tmoNever softAlways () 0 3 0 10 [] (ttWith ePV) ePV rfl).2.2.2
      (by decide) (by decide) rfl⟩

/-! ## C5 — the null-move pruning branch -/

/-- **C5.**  (i) The null-move branch of `PVS` is taken exactly when
`depth ≥ 3`, the node is not a PV node, the null-move counter is `< 2`, the
static evaluation is `≥ beta`, the side to move is not in check, and the side
to move has non-pawn material — in particular never when it has only pawns.
(ii) Under the guard the recursive null search runs at
`depth - 1 - min(depth - 2, R + ⌊(se - beta)/PAWN_VALUE⌋)` with base `R = 2`
for `depth < 6`, `3` for `6 ≤ depth < 11`, `4` for `depth ≥ 11`, and that
reduced depth is always `≥ 1`.  (iii) If the null search fails high
(`-v ≥ beta`), `PVS` returns `beta`. -/
theorem c5_nullmove {β : Type} (fuel : Nat) (B : BoardOps β)
    (tmo : Nat → Nat → Bool) (softo : Nat → Bool) (b : β) (color : Nat)
    (depth alpha beta : Int) (pvIn : List Move) (st : SearchState) :
    (∀ (d nmc se bet : Int) (isPV inChk npm : Bool),
       nullMoveGuard d isPV nmc se bet inChk npm = true ↔
         (d ≥ 3 ∧ isPV = false ∧ nmc < 2 ∧ se ≥ bet ∧ inChk = false ∧ npm = true)) ∧
    (∀ (d se bet : Int), 3 ≤ d → bet ≤ se →
       nullMoveReduction d se bet
         = min (d - 2)
             ((if d ≥ 11 then 4 else if d ≥ 6 then 3 else 2) + (se - bet) / PAWN_VALUE) ∧
       1 ≤ d - 1 - nullMoveReduction d se bet) ∧
    (probeTT fuel B tmo softo b color depth alpha beta pvIn st
        = some (-INFTY, alpha, NULL_MOVE, pvIn, st) →
      B.isDraw b = false → 0 < depth →
      nullMoveGuard depth (decide (beta - alpha > 1)) st.params.nullMoveCount
          (if color = WHITE then B.evaluate b else -B.evaluate b) beta
          (B.isInCheck b color) (B.getNonPawnMaterial b color) = true →
      ∀ v line1 st2,
        PVS fuel B tmo softo (B.doNullMove b) (color ^^^ 1)
            (depth - 1 - nullMoveReduction depth
              (if color = WHITE then B.evaluate b else -B.evaluate b) beta)
            (-beta) (-alpha) []
            (bumpPly { st with params :=
              { st.params with nullMoveCount := st.params.nullMoveCount + 1 } })
          = some (v, line1, st2) →
        beta ≤ -v →
        (PVS (fuel + 1) B tmo softo b color depth alpha beta pvIn st).map
            (fun r => r.1) = some beta) := by
  refine ⟨?_, ?_, ?_⟩
  · intro d nmc se bet isPV inChk npm
    simp [nullMoveGuard, and_assoc]
  · intro d se bet hd hse
    constructor
    · simp only [nullMoveReduction]
      rw [Int.tdiv_eq_ediv (by omega) (by decide)]
    · have h2 : nullMoveReduction d se bet ≤ d - 2 := by
        simp only [nullMoveReduction]
        exact min_le_left _ _
      omega
  · intro hprobe hdraw hd0 hguard v line1 st2 hchild hv
    simp only [probeTT] at hprobe
    simp only [PVS] at hchild
    simp only [PVS, engine]
    rw [if_neg (by omega)]
    simp only [hdraw, Bool.false_eq_true, if_false, hprobe]
    simp only [ne_eq, not_true_eq_false, if_false, hguard, if_true]
    simp only [hchild]
    rw [if_pos hv]
    rfl

/-- Witness for C5 on the two-point null-move board (`depth = 3`,
`(α, β) = (-3, -2)`, evaluation −2, position after the null move drawn):
the guard holds, the reduced depth is 1, the null search returns the
clamped draw score, fails high, and `PVS` returns `β = -2`. -/
theorem c5_nullmove_witness :
    ((nullMoveGuard 3 (decide ((-2 : Int) - (-3) > 1)) initState.params.nullMoveCount
        (if WHITE = WHITE then nullDrawB.evaluate false else -nullDrawB.evaluate false)
        (-2) (nullDrawB.isInCheck false WHITE) (nullDrawB.getNonPawnMaterial false WHITE))
      = true) ∧
    (PVS 3 nullDrawB tmoNever softAlways false WHITE 3 (-3) (-2) [] initState).map
      (fun r => r.1) = some (-2) := by
  constructor
  · decide
  · exact (c5_nullmove 3 nullDrawB tmoNever softAlways false WHITE 3 (-3) (-2) []
      initState).2.2 rfl rfl (by decide) (by decide) 2 []
      (bumpPly { initState with params :=
        { initState.params with nullMoveCount := initState.params.nullMoveCount + 1 } })
      rfl (by decide)

/-! ## C2 — an enclosing `PVS` call does not discard an aborted child -/

/-- **C2, counterexample.**  The claim says every enclosing `PVS` call
discards the partial result of an aborted child (no TT store, no
killer/history update, no beta cutoff derived from the aborted `-INFTY`).
Concretely: on the chain board, a depth-2 `PVS` at window `(0, 1)` whose
only child is aborted by the clock at the child's first poll returns
`beta = 1` (not `-INFTY`), has the stop flag set in its final state, and
that state contains a freshly stored `CUT` entry for the node and a fresh
killer — all derived from negating the aborted child's `-INFTY` to
`+INFTY ≥ beta`. -/
theorem c2_stop_counterexample :
    (PVS 6 chainB (tmoAt 1) softAlways 0 WHITE 2 0 1 [] initState).map
        (fun r => (r.1, r.2.2.isStop, r.2.2.tt 0, (r.2.2.params.killers 0).1))
      = some (1, true, some ⟨mQuiet, 1, 2, CUT_NODE, 0⟩, mQuiet) := by
  decide

/-- **C2, amended.**  A set stop causes the `PVS` call that observes it at
its time check to return `-INFTY`; the enclosing `PVS` call does **not**
discard this partial result: it negates it to `+INFTY`, which passes the
fail-high test (`beta ≤ INFTY`), so the move loop stores a `CUT` entry for
the node in the transposition table, performs the killer/history update for
a quiet move, and exits with a beta cutoff, which `PVS` turns into a
returned `beta`. -/
theorem c2_abort_not_discarded {β : Type} (fuel : Nat) (B : BoardOps β)
    (tmo : Nat → Nat → Bool) (softo : Nat → Bool) (ctx : PvsCtx β)
    (moves : List Move) (scores : List Int) (i : Nat) (alpha score : Int)
    (toHash : Move) (line pv line1 : List Move) (st st1 : SearchState) (copy : β)
    (hm : (nextMove moves scores i).1 ≠ NULL_MOVE)
    (hstop : st.isStop = false)
    (htmo : tmo st.polls st.params.timeLimit = false)
    (hfut : futilityGuard ctx.isPVNode ctx.depth ctx.staticEval alpha ctx.isInCheck
        (nextMove moves scores i).1
        (B.isCheckMove ctx.b (nextMove moves scores i).1 ctx.color) = false)
    (hlegal : B.doPseudoLegalMove ctx.b (nextMove moves scores i).1 ctx.color
        = some copy)
    (hchild : PVS fuel B tmo softo copy (ctx.color ^^^ 1) (ctx.depth - 1)
        (-ctx.beta) (-alpha) line
        (bumpPly { st with isStop := st.isStop || tmo st.polls st.params.timeLimit,
                           polls := st.polls + 1 })
      = some (-INFTY, line1, st1))
    (hbeta : ctx.beta ≤ INFTY) :
    (∃ st2, pvsMoveLoop (fuel + 1) B tmo softo ctx moves scores i 0 alpha score
        toHash line pv st = some (.cutoff, pv, st2) ∧
      st2.tt (B.fingerprint ctx.b)
        = some ⟨(nextMove moves scores i).1, ctx.beta, ctx.depth, CUT_NODE,
            st1.params.rootMoveNumber⟩ ∧
      st2.isStop = st1.isStop) ∧
    (∀ (b' : β) (color' : Nat) (depth' beta' prevAlpha' : Int) (inChk : Bool)
        (pvF : List Move) (stF : SearchState),
      pvsFinish B b' color' depth' beta' prevAlpha' inChk
          (some (.cutoff, pvF, stF)) = some (beta', pvF, stF)) := by
  constructor
  · simp only [pvsMoveLoop, engine]
    rw [if_neg hm]
    simp only [hstop, htmo, Bool.or_false] at hchild ⊢
    rw [if_neg (by simp)]
    simp only [hfut, Bool.false_eq_true, if_false]
    simp only [hlegal]
    rw [if_neg (fun h => h rfl)]
    simp only [PVS] at hchild
    simp only [hchild]
    rw [if_pos (show -(-INFTY) ≥ ctx.beta by rw [neg_neg]; exact hbeta)]
    refine ⟨_, rfl, ?_, ?_⟩
    · by_cases hcap : isCapture (nextMove moves scores i).1
      · simp only [hcap, Bool.not_true, Bool.false_eq_true, if_false]
        simp [ttAdd, dropPly]
      · simp only [hcap, Bool.not_false, if_true]
        simp only [addHistory, recordKiller, ttAdd, dropPly]
        split <;> simp
    · by_cases hcap : isCapture (nextMove moves scores i).1
      · simp only [hcap, Bool.not_true, Bool.false_eq_true, if_false]
        simp [ttAdd, dropPly]
      · simp only [hcap, Bool.not_false, if_true]
        simp only [addHistory, recordKiller, ttAdd, dropPly]
        split <;> simp
  · intro b' color' depth' beta' prevAlpha' inChk pvF stF
    rfl

/-- The state in which the chain-board child call of the C2 scenario aborts:
`ply` bumped for the child, the stop flag set by the poll, two clock polls
consumed. -/
def c2AbortState : SearchState :=
  { initState with
      params := { initState.params with ply := 1 }
      isStop := true
      polls := 2 }

/-- Witness for C2's amended statement: the concrete chain-board scenario of
the counterexample, at the move-loop level. -/
theorem c2_abort_not_discarded_witness :
    (∃ st2, pvsMoveLoop 5 chainB (tmoAt 1) softAlways
        ⟨0, WHITE, 2, 1, 0, false, false, 0⟩ [mQuiet] [0] 0 0 0 (-INFTY)
        NULL_MOVE [] [] initState = some (.cutoff, [], st2) ∧
      st2.tt (chainB.fingerprint 0)
        = some ⟨(nextMove [mQuiet] [0] 0).1, 1, 2, CUT_NODE,
            c2AbortState.params.rootMoveNumber⟩ ∧
      st2.isStop = c2AbortState.isStop) ∧
    (∀ (b' : Nat) (color' : Nat) (depth' beta' prevAlpha' : Int) (inChk : Bool)
        (pvF : List Move) (stF : SearchState),
      pvsFinish chainB b' color' depth' beta' prevAlpha' inChk
          (some (.cutoff, pvF, stF)) = some (beta', pvF, stF)) :=
  c2_abort_not_discarded 4 chainB (tmoAt 1) softAlways
    ⟨0, WHITE, 2, 1, 0, false, false, 0⟩ [mQuiet] [0] 0 0 (-INFTY) NULL_MOVE
    [] [] [] initState c2AbortState 1
    (by decide) rfl rfl (by decide) rfl rfl (by decide)

/-! ## C3 — "no legal move searched" versus futility pruning -/

/-- `swapList` preserves length. -/
theorem swapList_length {α : Type} [Inhabited α] (l : List α) (i j : Nat) :
    (swapList l i j).length = l.length := by
  simp [swapList]

/-- Members of a swapped list were members of the original (both swap indices
in range). -/
theorem swapList_mem {α : Type} [Inhabited α] {l : List α} {i j : Nat}
    (hi : i < l.length) (hj : j < l.length) {x : α}
    (hx : x ∈ swapList l i j) : x ∈ l := by
  simp only [swapList] at hx
  rcases List.mem_or_eq_of_mem_set hx with hx' | rfl
  · rcases List.mem_or_eq_of_mem_set hx' with hx'' | rfl
    · exact hx''
    · rw [List.getD_eq_getElem _ _ hj]
      exact List.getElem_mem hj
  · rw [List.getD_eq_getElem _ _ hi]
    exact List.getElem_mem hi

/-- If every remaining candidate passes the futility-pruning guard (at the
running `alpha`, which pruning never changes), the move loop prunes them all:
it exits normally with the `score` variable set to `alpha` (when at least one
move was pruned), `alpha` unchanged and no best move recorded — and in
particular no iteration reaches a search, a TT store or a killer update. -/
theorem pvsLoop_all_futile {β : Type} (B : BoardOps β) (tmo : Nat → Nat → Bool)
    (softo : Nat → Bool) (ctx : PvsCtx β) (htmo : ∀ p l, tmo p l = false) :
    ∀ (fuel : Nat) (moves : List Move) (scores : List Int) (i ms : Nat)
      (alpha score : Int) (toHash : Move) (line pv : List Move) (st : SearchState),
    moves.length - i < fuel → scores.length = moves.length → NULL_MOVE ∉ moves →
    st.isStop = false →
    (∀ m, m ∈ moves → futilityGuard ctx.isPVNode ctx.depth ctx.staticEval alpha
        ctx.isInCheck m (B.isCheckMove ctx.b m ctx.color) = true) →
    ∃ st', pvsMoveLoop fuel B tmo softo ctx moves scores i ms alpha score toHash
        line pv st
      = some (.done (if i < moves.length then alpha else score) alpha toHash,
          pv, st') := by
  intro fuel
  induction fuel with
  | zero => intro moves scores i ms alpha score toHash line pv st hfuel; omega
  | succ f ih =>
    intro moves scores i ms alpha score toHash line pv st hfuel hlen hnn hstop hfut
    by_cases hi : i < moves.length
    · obtain ⟨e1, e2, e3, e4, e5, e6, e7⟩ :=
        selectBest_spec scores (i + 1) i (scores.getD i 0) (by omega) rfl (by omega)
      have hbb : (selectBest scores (i + 1) i (scores.getD i 0)).1 < moves.length := by
        omega
      have hmmem : moves.getD (selectBest scores (i + 1) i (scores.getD i 0)).1
          NULL_MOVE ∈ moves := by
        rw [List.getD_eq_getElem _ _ hbb]
        exact List.getElem_mem hbb
      have hmnn : ¬(moves.getD (selectBest scores (i + 1) i (scores.getD i 0)).1
          NULL_MOVE = NULL_MOVE) := fun h => hnn (h ▸ hmmem)
      simp only [pvsMoveLoop, engine]
      rw [nextMove_eq_of_lt moves scores i hi]
      simp only []
      rw [if_neg hmnn]
      simp only [hstop, htmo, Bool.or_false]
      rw [if_neg (by simp)]
      rw [if_pos (by
        have := hfut _ hmmem
        simpa using this)]
      have hswlen : (swapList moves (selectBest scores (i + 1) i
          (scores.getD i 0)).1 i).length = moves.length := swapList_length _ _ _
      have hswlen2 : (swapList scores (selectBest scores (i + 1) i
          (scores.getD i 0)).1 i).length = scores.length := swapList_length _ _ _
      obtain ⟨st', hst'⟩ := ih
        (swapList moves (selectBest scores (i + 1) i (scores.getD i 0)).1 i)
        (swapList scores (selectBest scores (i + 1) i (scores.getD i 0)).1 i)
        (i + 1) ms alpha alpha toHash line pv
        { st with isStop := false, polls := st.polls + 1 }
        (by omega) (by omega)
        (fun h => hnn (swapList_mem hbb hi h))
        rfl
        (fun m hm => hfut m (swapList_mem hbb hi hm))
      refine ⟨st', ?_⟩
      simp only [pvsMoveLoop] at hst'
      rw [hst']
      simp [ite_self, hi]
    · refine ⟨st, ?_⟩
      simp only [pvsMoveLoop, engine]
      unfold nextMove
      rw [if_pos (show i ≥ moves.length by omega)]
      rw [if_pos (show ((NULL_MOVE, moves, scores) : Move × List Move × List Int).1
        = NULL_MOVE from rfl), if_neg hi]

/-- If every remaining candidate fails the pseudo-legal legality check (and
none is futility-pruned), the move loop skips them all without counting: it
exits normally with the `score` variable untouched. -/
theorem pvsLoop_all_illegal {β : Type} (B : BoardOps β) (tmo : Nat → Nat → Bool)
    (softo : Nat → Bool) (ctx : PvsCtx β) (htmo : ∀ p l, tmo p l = false) :
    ∀ (fuel : Nat) (moves : List Move) (scores : List Int) (i ms : Nat)
      (alpha score : Int) (toHash : Move) (line pv : List Move) (st : SearchState),
    moves.length - i < fuel → scores.length = moves.length → NULL_MOVE ∉ moves →
    st.isStop = false →
    (∀ m, m ∈ moves → futilityGuard ctx.isPVNode ctx.depth ctx.staticEval alpha
        ctx.isInCheck m (B.isCheckMove ctx.b m ctx.color) = false) →
    (∀ m, m ∈ moves → B.doPseudoLegalMove ctx.b m ctx.color = none) →
    ∃ st', pvsMoveLoop fuel B tmo softo ctx moves scores i ms alpha score toHash
        line pv st = some (.done score alpha toHash, pv, st') := by
  intro fuel
  induction fuel with
  | zero => intro moves scores i ms alpha score toHash line pv st hfuel; omega
  | succ f ih =>
    intro moves scores i ms alpha score toHash line pv st hfuel hlen hnn hstop hfut hill
    by_cases hi : i < moves.length
    · obtain ⟨e1, e2, e3, e4, e5, e6, e7⟩ :=
        selectBest_spec scores (i + 1) i (scores.getD i 0) (by omega) rfl (by omega)
      have hbb : (selectBest scores (i + 1) i (scores.getD i 0)).1 < moves.length := by
        omega
      have hmmem : moves.getD (selectBest scores (i + 1) i (scores.getD i 0)).1
          NULL_MOVE ∈ moves := by
        rw [List.getD_eq_getElem _ _ hbb]
        exact List.getElem_mem hbb
      have hmnn : ¬(moves.getD (selectBest scores (i + 1) i (scores.getD i 0)).1
          NULL_MOVE = NULL_MOVE) := fun h => hnn (h ▸ hmmem)
      simp only [pvsMoveLoop, engine]
      rw [nextMove_eq_of_lt moves scores i hi]
      simp only []
      rw [if_neg hmnn]
      simp only [hstop, htmo, Bool.or_false]
      rw [if_neg (by simp)]
      rw [if_neg (by
        have := hfut _ hmmem
        simpa using this)]
      rw [hill _ hmmem]
      obtain ⟨st', hst'⟩ := ih
        (swapList moves (selectBest scores (i + 1) i (scores.getD i 0)).1 i)
        (swapList scores (selectBest scores (i + 1) i (scores.getD i 0)).1 i)
        (i + 1) ms alpha score toHash line pv
        { st with isStop := false, polls := st.polls + 1 }
        (by have := swapList_length moves (selectBest scores (i + 1) i
              (scores.getD i 0)).1 i
            omega)
        (by have h1 := swapList_length moves (selectBest scores (i + 1) i
              (scores.getD i 0)).1 i
            have h2 := swapList_length scores (selectBest scores (i + 1) i
              (scores.getD i 0)).1 i
            omega)
        (fun h => hnn (swapList_mem hbb hi h))
        rfl
        (fun m hm => hfut m (swapList_mem hbb hi hm))
        (fun m hm => hill m (swapList_mem hbb hi hm))
      refine ⟨st', ?_⟩
      simp only [pvsMoveLoop] at hst'
      rw [hst']
    · refine ⟨st, ?_⟩
      simp only [pvsMoveLoop, engine]
      unfold nextMove
      rw [if_pos (show i ≥ moves.length by omega)]
      rw [if_pos (show ((NULL_MOVE, moves, scores) : Move × List Move × List Int).1
        = NULL_MOVE from rfl)]

/-- **C3, counterexample.**  The claim says that whenever `PVS` reaches its
move loop and no legal move is actually searched — "e.g. every candidate was
futility-pruned" — it returns `scoreMate(...)`.  On the `evalB` board family
(static evaluation −210, one quiet pseudo-legal move) at `depth 1`, window
`(-10, -9)`, the single candidate is futility-pruned (which sets the `score`
variable to `alpha`), so the `score == -INFTY` test fails and `PVS` returns
`alpha = -10`, while `scoreMate` would return `-9`: the source's own comment
"TODO may fail low in some stalemate cases" records this. -/
theorem c3_futility_counterexample :
    (PVS 5 evalB tmoNever softAlways (-210) WHITE 1 (-10) (-9) [] initState).map
        (fun r => r.1) = some (-10) ∧
    scoreMate initState.params.ply false 1 (-10) (-9) = -9 ∧
    ((-10 : Int) ≠ -9) := by
  refine ⟨by decide, by decide, by decide⟩

/-- **C3, amended.**  In the move loop of `PVS`, the "no legal move searched"
detection is the sentinel test `score == -INFTY`, and futility pruning sets
`score` to `alpha`.  Hence: (i) if every remaining candidate is
futility-pruned the loop exits normally with `score = alpha` and nothing
searched; (ii) a normal loop exit with `score = alpha ≠ -INFTY`, no best
move and `alpha ≤ prevAlpha` makes `PVS` store an `ALL` entry and return
`alpha` — not `scoreMate`; (iii) if every remaining candidate merely fails
the pseudo-legal legality check (and none is futility-pruned) the loop exits
with `score` untouched, so with the initial `score = -INFTY` (iv) `PVS`
returns `scoreMate(isInCheck, depth, alpha, beta)` exactly then. -/
theorem c3_no_legal_move_vs_futility :
    (∀ (β : Type) (B : BoardOps β) (tmo : Nat → Nat → Bool) (softo : Nat → Bool)
       (ctx : PvsCtx β), (∀ p l, tmo p l = false) →
     ∀ (fuel : Nat) (moves : List Move) (scores : List Int) (i ms : Nat)
       (alpha score : Int) (toHash : Move) (line pv : List Move) (st : SearchState),
       moves.length - i < fuel → scores.length = moves.length → NULL_MOVE ∉ moves →
       st.isStop = false →
       (∀ m, m ∈ moves → futilityGuard ctx.isPVNode ctx.depth ctx.staticEval alpha
           ctx.isInCheck m (B.isCheckMove ctx.b m ctx.color) = true) →
       ∃ st', pvsMoveLoop fuel B tmo softo ctx moves scores i ms alpha score toHash
           line pv st
         = some (.done (if i < moves.length then alpha else score) alpha toHash,
             pv, st')) ∧
    (∀ (β : Type) (B : BoardOps β) (b : β) (color : Nat)
       (depth beta prevAlpha alphaF : Int) (inChk : Bool) (pvF : List Move)
       (stF : SearchState), alphaF ≠ -INFTY → alphaF ≤ prevAlpha →
     pvsFinish B b color depth beta prevAlpha inChk
         (some (.done alphaF alphaF NULL_MOVE, pvF, stF))
       = some (alphaF, pvF, ttAdd B b depth NULL_MOVE alphaF ALL_NODE stF)) ∧
    (∀ (β : Type) (B : BoardOps β) (tmo : Nat → Nat → Bool) (softo : Nat → Bool)
       (ctx : PvsCtx β), (∀ p l, tmo p l = false) →
     ∀ (fuel : Nat) (moves : List Move) (scores : List Int) (i ms : Nat)
       (alpha score : Int) (toHash : Move) (line pv : List Move) (st : SearchState),
       moves.length - i < fuel → scores.length = moves.length → NULL_MOVE ∉ moves →
       st.isStop = false →
       (∀ m, m ∈ moves → futilityGuard ctx.isPVNode ctx.depth ctx.staticEval alpha
           ctx.isInCheck m (B.isCheckMove ctx.b m ctx.color) = false) →
       (∀ m, m ∈ moves → B.doPseudoLegalMove ctx.b m ctx.color = none) →
       ∃ st', pvsMoveLoop fuel B tmo softo ctx moves scores i ms alpha score toHash
           line pv st = some (.done score alpha toHash, pv, st')) ∧
    (∀ (β : Type) (B : BoardOps β) (b : β) (color : Nat)
       (depth beta prevAlpha alphaF : Int) (inChk : Bool) (toHash : Move)
       (pvF : List Move) (stF : SearchState),
     pvsFinish B b color depth beta prevAlpha inChk
         (some (.done (-INFTY) alphaF toHash, pvF, stF))
       = some (scoreMate stF.params.ply inChk depth alphaF beta, pvF, stF)) := by
  refine ⟨?_, ?_, ?_, ?_⟩
  · intro β B tmo softo ctx htmo
    exact pvsLoop_all_futile B tmo softo ctx htmo
  · intro β B b color depth beta prevAlpha alphaF inChk pvF stF h1 h2
    simp only [pvsFinish]
    rw [if_neg h1]
    rw [if_neg (fun h => h.1 rfl), if_pos h2]
  · intro β B tmo softo ctx htmo
    exact pvsLoop_all_illegal B tmo softo ctx htmo
  · intro β B b color depth beta prevAlpha alphaF inChk toHash pvF stF
    simp [pvsFinish]

/-- The loop context of the futility-pruning scenario on `evalB`. -/
def futCtx : PvsCtx Int := ⟨-210, WHITE, 1, -9, -10, false, false, -210⟩

/-- The loop context of the all-illegal scenario on `illegalB`. -/
def illCtx : PvsCtx Int := ⟨0, WHITE, 1, -9, -10, false, false, 0⟩

/-- Witness for C3's amended statement: the futility scenario prunes its only
candidate and exits with `score = alpha = -10`; `pvsFinish` then returns
`-10` with an `ALL` store; the all-illegal scenario leaves `score = -INFTY`
and `pvsFinish` maps it to the `scoreMate` value. -/
theorem c3_no_legal_move_vs_futility_witness :
    (∃ st', pvsMoveLoop 3 evalB tmoNever softAlways futCtx [mQuiet] [0] 0 0
        (-10) (-INFTY) NULL_MOVE [] [] initState
      = some (.done (if 0 < ([mQuiet] : List Move).length then (-10 : Int)
          else -INFTY) (-10) NULL_MOVE, [], st')) ∧
    (pvsFinish evalB (-210) WHITE 1 (-9) (-10) false
        (some (.done (-10) (-10) NULL_MOVE, [], initState))
      = some (-10, [], ttAdd evalB (-210) 1 NULL_MOVE (-10) ALL_NODE initState)) ∧
    (∃ st', pvsMoveLoop 3 illegalB tmoNever softAlways illCtx [mCapture] [0] 0 0
        (-10) (-INFTY) NULL_MOVE [] [] initState
      = some (.done (-INFTY) (-10) NULL_MOVE, [], st')) ∧
    (pvsFinish illegalB 0 WHITE 1 (-9) (-10) false
        (some (.done (-INFTY) (-10) NULL_MOVE, [], initState))
      = some (scoreMate initState.params.ply false 1 (-10) (-9), [], initState)) :=
  ⟨c3_no_legal_move_vs_futility.1 Int evalB tmoNever softAlways futCtx
      (fun _ _ => rfl) 3 [mQuiet] [0] 0 0 (-10) (-INFTY) NULL_MOVE [] [] initState
      (by decide) (by decide) (by decide) rfl (by decide),
   c3_no_legal_move_vs_futility.2.1 Int evalB (-210) WHITE 1 (-9) (-10) (-10)
      false [] initState (by decide) (by decide),
   c3_no_legal_move_vs_futility.2.2.1 Int illegalB tmoNever softAlways illCtx
      (fun _ _ => rfl) 3 [mCapture] [0] 0 0 (-10) (-INFTY) NULL_MOVE [] [] initState
      (by decide) (by decide) (by decide) rfl (by decide) (fun m _ => rfl),
   c3_no_legal_move_vs_futility.2.2.2 Int illegalB 0 WHITE 1 (-9) (-10) (-10)
      false NULL_MOVE [] initState⟩

/-! ## C1 — the fail-hard contract

The fail-hard property is proved for the whole engine by one induction on
fuel; the per-function invariants below only track the window bounds of the
running `alpha` variables, which is all the loops maintain locally. -/

/-- Bounds of `scoreMate`'s clamp. -/
theorem scoreMate_bounds (ply : Int) (inChk : Bool) (depth alpha beta : Int)
    (h : alpha ≤ beta) :
    alpha ≤ scoreMate ply inChk depth alpha beta ∧
    scoreMate ply inChk depth alpha beta ≤ beta := by
  simp only [scoreMate]
  split_ifs <;> omega

/-- Invariant of a quiescence move-loop result: a normal exit keeps `alpha`
inside the window. -/
def QResInv (alpha beta : Int) : QRes → Prop
  | .betaCut => True
  | .cont a => alpha ≤ a ∧ a < beta

/-- Invariant of a check-quiescence loop result. -/
def CQResInv (alpha beta : Int) : CQRes → Prop
  | .betaCut => True
  | .done _ a => alpha ≤ a ∧ a < beta

/-- Invariant of a `PVS` move-loop result. -/
def PvsLoopInv (alpha beta : Int) : PvsLoopOut → Prop
  | .abort => True
  | .cutoff => True
  | .done _ a _ => alpha ≤ a ∧ a < beta

/-- The `PVS` post-loop tail maps a loop result respecting `PvsLoopInv` to a
fail-hard score or the `-INFTY` abort sentinel. -/
theorem pvsFinish_inv {β : Type} (B : BoardOps β) (b : β) (color : Nat)
    (depth beta prevAlpha : Int) (inChk : Bool)
    (res : Option (PvsLoopOut × List Move × SearchState))
    (alpha0 alpha1 : Int) (r : Int × List Move × SearchState)
    (h01 : alpha0 ≤ alpha1) (h1b : alpha1 < beta)
    (hinv : ∀ out pvF stF, res = some (out, pvF, stF) → PvsLoopInv alpha1 beta out)
    (h : pvsFinish B b color depth beta prevAlpha inChk res = some r) :
    r.1 = -INFTY ∨ (alpha0 ≤ r.1 ∧ r.1 ≤ beta) := by
  match res with
  | none => cases h
  | some (out, pvF, stF) =>
    have hi := hinv out pvF stF rfl
    cases out with
    | abort =>
      simp only [pvsFinish] at h
      cases h
      left; rfl
    | cutoff =>
      simp only [pvsFinish] at h
      cases h
      right; constructor <;> omega
    | done s aF t =>
      obtain ⟨ha1, ha2⟩ := hi
      simp only [pvsFinish] at h
      by_cases hs : s = -INFTY
      · rw [if_pos hs] at h
        cases h
        right
        have := scoreMate_bounds stF.params.ply inChk depth aF beta (by omega)
        constructor <;> omega
      · rw [if_neg hs] at h
        cases h
        right; constructor <;> omega

set_option maxHeartbeats 4000000 in
/-- The fail-hard invariants of the whole engine, proved simultaneously for
every fuel: `PVS` returns either the `-INFTY` abort sentinel or a score in
`[alpha, beta]`; `quiescence`/`checkQuiescence` (which never observe the stop
flag) always return a score in `[alpha, beta]`; `probeTT` keeps its
by-reference `alpha` inside `[alpha, beta)` when it reports no cutoff and
returns a score in `[alpha, beta]` otherwise; every move loop keeps its
running `alpha` inside `[alpha, beta)`. -/
theorem engine_fail_hard {β : Type} (B : BoardOps β) (tmo : Nat → Nat → Bool)
    (softo : Nat → Bool) : ∀ (fuel : Nat),
    (∀ b color depth alpha beta pvIn st r, alpha < beta →
      (engine B tmo softo fuel).pvs b color depth alpha beta pvIn st = some r →
      r.1 = -INFTY ∨ (alpha ≤ r.1 ∧ r.1 ≤ beta)) ∧
    (∀ ctx moves scores i ms alpha score toHash line pv st r, alpha < ctx.beta →
      (engine B tmo softo fuel).pvsLoop ctx moves scores i ms alpha score toHash
        line pv st = some r → PvsLoopInv alpha ctx.beta r.1) ∧
    (∀ b color depth alpha beta pv st r, alpha < beta →
      (engine B tmo softo fuel).probe b color depth alpha beta pv st = some r →
      (r.1 = -INFTY → alpha ≤ r.2.1 ∧ r.2.1 < beta) ∧
      (r.1 ≠ -INFTY → alpha ≤ r.1 ∧ r.1 ≤ beta)) ∧
    (∀ b color plies alpha beta ply r, alpha < beta →
      (engine B tmo softo fuel).q b color plies alpha beta ply = some r →
      alpha ≤ r ∧ r ≤ beta) ∧
    (∀ b color plies standPat moves scores i alpha beta ply r, alpha < beta →
      (engine B tmo softo fuel).qCapLoop b color plies standPat moves scores i
        alpha beta ply = some r → QResInv alpha beta r) ∧
    (∀ b color plies moves i alpha beta ply r, alpha < beta →
      (engine B tmo softo fuel).qPromLoop b color plies moves i alpha beta ply
        = some r → QResInv alpha beta r) ∧
    (∀ b color plies moves i alpha beta ply r, alpha < beta →
      (engine B tmo softo fuel).qChkLoop b color plies moves i alpha beta ply
        = some r → QResInv alpha beta r) ∧
    (∀ b color plies alpha beta ply r, alpha < beta →
      (engine B tmo softo fuel).cq b color plies alpha beta ply = some r →
      alpha ≤ r ∧ r ≤ beta) ∧
    (∀ b color plies moves i score alpha beta ply r, alpha < beta →
      (engine B tmo softo fuel).cqLoop b color plies moves i score alpha beta ply
        = some r → CQResInv alpha beta r) := by
  intro fuel
  induction fuel with
  | zero =>
    refine ⟨?_, ?_, ?_, ?_, ?_, ?_, ?_, ?_, ?_⟩ <;>
      · intros
        simp only [engine, engineZero] at *
        simp_all
  | succ n ih =>
    obtain ⟨IHpvs, IHloop, IHprobe, IHq, IHcap, IHprom, IHchk, IHcq, IHcqloop⟩ := ih
    have hscoreMate := scoreMate_bounds
    refine ⟨?_, ?_, ?_, ?_, ?_, ?_, ?_, ?_, ?_⟩
    -- pvs
    · intro b color depth alpha beta pvIn st r hab h
      simp only [engine] at h
      by_cases hd : depth ≤ 0
      · rw [if_pos hd] at h
        split at h
        · cases h
        · rename_i v hq
          cases h
          right
          exact IHq _ _ _ _ _ _ _ hab hq
      · rw [if_neg hd] at h
        by_cases hdr : B.isDraw b = true
        · rw [if_pos hdr] at h
          cases h
          right
          constructor <;> (split_ifs <;> omega)
        · rw [if_neg hdr] at h
          split at h
          · cases h
          · rename_i hashScore alpha1 hashed pv1 st1 hp
            have hpr := IHprobe _ _ _ _ _ _ _ _ hab hp
            by_cases hhs : hashScore ≠ -INFTY
            · rw [if_pos hhs] at h
              cases h
              right
              exact hpr.2 hhs
            · rw [if_neg hhs] at h
              push_neg at hhs
              have hal : alpha ≤ alpha1 ∧ alpha1 < beta := hpr.1 hhs
              split at h
              · cases h
              · -- null-move branch produced a cutoff value
                rename_i r' l' st3 hnull
                cases h
                right
                -- the cutoff value is beta, extracted from the construction
                by_cases hg : nullMoveGuard depth (decide (beta - alpha > 1))
                    st1.params.nullMoveCount
                    (if color = WHITE then B.evaluate b else -B.evaluate b) beta
                    (B.isInCheck b color) (B.getNonPawnMaterial b color) = true
                · rw [if_pos hg] at hnull
                  split at hnull
                  · cases hnull
                  · rename_i v l1 st2 hc
                    split at hnull
                    · cases hnull
                      constructor <;> omega
                    · simp at hnull
                · rw [if_neg hg] at hnull
                  simp at hnull
              · -- no null cutoff: continue at (possibly raised) alpha1
                rename_i line1 st3 hnull
                by_cases hrfp : (!decide (beta - alpha > 1) && !B.isInCheck b color
                    && (decide (depth ≤ 2) && decide
                        ((if color = WHITE then B.evaluate b else -B.evaluate b)
                          - REVERSE_FUTILITY_MARGIN.getD depth.toNat 0 ≥ beta))
                    && B.getNonPawnMaterial b color) = true
                · rw [if_pos hrfp] at h
                  cases h
                  right
                  constructor <;> omega
                · rw [if_neg hrfp] at h
                  -- split the in-check/not-in-check choice of the move list,
                  -- then treat both branches uniformly
                  split at h
                  all_goals
                  split at h
                  · -- no pseudo-legal moves: scoreMate
                    cases h
                    right
                    have := hscoreMate st3.params.ply (B.isInCheck b color) depth
                      alpha1 beta (by omega)
                    constructor <;> omega
                  · split at h
                    · -- high-depth scoring
                      by_cases hiid : (decide (depth ≥ 5) && (hashed == NULL_MOVE))
                          = true
                      · rw [if_pos hiid] at h
                        split at h
                        · cases h
                        · rename_i bestIndex st4 hgb
                          by_cases hbi : bestIndex = -1
                          · rw [if_pos hbi] at h
                            cases h
                            right
                            have := hscoreMate st4.params.ply (B.isInCheck b color)
                              depth alpha1 beta (by omega)
                            constructor <;> omega
                          · rw [if_neg hbi] at h
                            exact pvsFinish_inv B b color depth beta alpha
                              (B.isInCheck b color) _ alpha alpha1 r hal.1 hal.2
                              (fun out pvF stF heq =>
                                IHloop _ _ _ _ _ _ _ _ _ _ _ _ hal.2 heq) h
                      · rw [if_neg hiid] at h
                        exact pvsFinish_inv B b color depth beta alpha
                          (B.isInCheck b color) _ alpha alpha1 r hal.1 hal.2
                          (fun out pvF stF heq =>
                            IHloop _ _ _ _ _ _ _ _ _ _ _ _ hal.2 heq) h
                    · exact pvsFinish_inv B b color depth beta alpha
                        (B.isInCheck b color) _ alpha alpha1 r hal.1 hal.2
                        (fun out pvF stF heq =>
                          IHloop _ _ _ _ _ _ _ _ _ _ _ _ hal.2 heq) h
    -- pvsLoop
    · intro ctx moves scores i ms alpha score toHash line pv st r hab h
      simp only [engine] at h
      split at h
      · cases h
        exact ⟨le_refl _, hab⟩
      · split at h
        · cases h
          trivial
        · split at h
          · -- futility pruning: recurse with score := alpha
            exact IHloop _ _ _ _ _ _ _ _ _ _ _ _ hab h
          · split at h
            · -- illegal move: recurse
              exact IHloop _ _ _ _ _ _ _ _ _ _ _ _ hab h
            · rename_i copy hlegal
              split at h
              · cases h
              · rename_i ns l1 s1 hsr
                by_cases hbcut : ns ≥ ctx.beta
                · rw [if_pos hbcut] at h
                  cases h
                  trivial
                · rw [if_neg hbcut] at h
                  by_cases hup : ns > alpha
                  · rw [if_pos hup] at h
                    have := IHloop _ _ _ _ _ _ _ _ _ _ _ _
                      (show ns < ctx.beta by omega) h
                    cases hr : r.1 with
                    | abort => trivial
                    | cutoff => trivial
                    | done s' a' t' =>
                      rw [hr] at this
                      obtain ⟨h1, h2⟩ := this
                      exact ⟨by omega, h2⟩
                  · rw [if_neg hup] at h
                    exact IHloop _ _ _ _ _ _ _ _ _ _ _ _ hab h
    -- probe
    · intro b color depth alpha beta pv st r hab h
      simp only [engine] at h
      split at h
      · cases h
        exact ⟨fun _ => ⟨le_refl _, hab⟩, fun hne => absurd rfl hne⟩
      · rename_i entry hentry
        split at h
        · split at h
          · cases h
            exact ⟨fun _ => ⟨le_refl _, hab⟩, fun _ => ⟨le_refl _, by omega⟩⟩
          · cases h
            exact ⟨fun _ => ⟨le_refl _, hab⟩, fun hne => absurd rfl hne⟩
        · split at h
          · cases h
            exact ⟨fun _ => ⟨le_refl _, hab⟩, fun _ => ⟨by omega, le_refl _⟩⟩
          · split at h
            · rename_i copy hcopy
              split at h
              · cases h
              · rename_i v l1 s1 hc
                by_cases hvb : -v ≥ beta
                · rw [if_pos hvb] at h
                  cases h
                  exact ⟨fun _ => ⟨le_refl _, hab⟩, fun _ => ⟨by omega, le_refl _⟩⟩
                · rw [if_neg hvb] at h
                  by_cases hva : -v > alpha
                  · rw [if_pos hva] at h
                    cases h
                    exact ⟨fun _ => ⟨show alpha ≤ -v by omega, show -v < beta by omega⟩,
                      fun hne => absurd rfl hne⟩
                  · rw [if_neg hva] at h
                    cases h
                    exact ⟨fun _ => ⟨le_refl _, hab⟩, fun hne => absurd rfl hne⟩
            · cases h
              exact ⟨fun _ => ⟨le_refl _, hab⟩, fun hne => absurd rfl hne⟩
    -- q
    · intro b color plies alpha beta ply r hab h
      simp only [engine] at h
      split at h
      · exact IHcq _ _ _ _ _ _ _ hab h
      · by_cases h1 : (if color = WHITE then B.evaluateMaterial b
            else -B.evaluateMaterial b) ≥ beta + MAX_POS_SCORE
        · rw [if_pos h1] at h
          cases h
          exact ⟨by omega, le_refl _⟩
        · rw [if_neg h1] at h
          by_cases h2 : (if color = WHITE then B.evaluateMaterial b
              else -B.evaluateMaterial b) < alpha - 2 * MAX_POS_SCORE - QUEEN_VALUE
          · rw [if_pos h2] at h
            cases h
            exact ⟨le_refl _, by omega⟩
          · rw [if_neg h2] at h
            by_cases h3 : (if color = WHITE then B.evaluateMaterial b
                  else -B.evaluateMaterial b)
                + (if color = WHITE then B.evaluatePositional b
                  else -B.evaluatePositional b) ≥ beta
            · rw [if_pos h3] at h
              injection h with h
              omega
            · rw [if_neg h3] at h
              set sp := (if color = WHITE then B.evaluateMaterial b
                  else -B.evaluateMaterial b)
                + (if color = WHITE then B.evaluatePositional b
                  else -B.evaluatePositional b) with hsp
              set alpha2 := if alpha < sp then sp else alpha with halpha2
              have hax : alpha ≤ alpha2 ∧ alpha2 < beta := by
                rw [halpha2]
                split_ifs <;> omega
              by_cases h4 : sp < alpha2 - MAX_POS_SCORE - QUEEN_VALUE
              · rw [if_pos h4] at h
                injection h with h
                omega
              · rw [if_neg h4] at h
                split at h
                · cases h
                · -- qCapLoop returned betaCut
                  injection h with h
                  omega
                · rename_i a1 hq1
                  have hc1 := IHcap _ _ _ _ _ _ _ _ _ _ _ hax.2 hq1
                  obtain ⟨hc1a, hc1b⟩ := hc1
                  split at h
                  · cases h
                  · -- qPromLoop returned betaCut
                    injection h with h
                    omega
                  · rename_i a2 hq2
                    have hc2 := IHprom _ _ _ _ _ _ _ _ _
                      (show a1 < beta from hc1b) hq2
                    obtain ⟨hc2a, hc2b⟩ := hc2
                    by_cases hpl : plies ≤ 0
                    · rw [if_pos hpl] at h
                      split at h
                      · cases h
                      · -- qChkLoop returned betaCut
                        injection h with h
                        omega
                      · rename_i a3 hq3
                        have hc3 := IHchk _ _ _ _ _ _ _ _ _
                          (show a2 < beta from hc2b) hq3
                        obtain ⟨hc3a, hc3b⟩ := hc3
                        injection h with h
                        omega
                    · rw [if_neg hpl] at h
                      injection h with h
                      omega
    -- qCapLoop
    · intro b color plies standPat moves scores i alpha beta ply r hab h
      simp only [engine] at h
      split at h
      · cases h
        exact ⟨le_refl _, hab⟩
      · split at h
        · exact IHcap _ _ _ _ _ _ _ _ _ _ _ hab h
        · split at h
          · exact IHcap _ _ _ _ _ _ _ _ _ _ _ hab h
          · split at h
            · exact IHcap _ _ _ _ _ _ _ _ _ _ _ hab h
            · rename_i copy hcopy
              split at h
              · cases h
              · rename_i v hv
                by_cases hvb : -v ≥ beta
                · rw [if_pos hvb] at h
                  cases h
                  trivial
                · rw [if_neg hvb] at h
                  by_cases hva : -v > alpha
                  · rw [if_pos hva] at h
                    have := IHcap _ _ _ _ _ _ _ _ _ _ _
                      (show -v < beta by omega) h
                    cases r with
                    | betaCut => trivial
                    | cont a' =>
                      obtain ⟨x1, x2⟩ := this
                      exact ⟨by omega, x2⟩
                  · rw [if_neg hva] at h
                    exact IHcap _ _ _ _ _ _ _ _ _ _ _ hab h
    -- qPromLoop
    · intro b color plies moves i alpha beta ply r hab h
      simp only [engine] at h
      split at h
      · split at h
        · exact IHprom _ _ _ _ _ _ _ _ _ hab h
        · split at h
          · exact IHprom _ _ _ _ _ _ _ _ _ hab h
          · rename_i copy hcopy
            split at h
            · cases h
            · rename_i v hv
              by_cases hvb : -v ≥ beta
              · rw [if_pos hvb] at h
                cases h
                trivial
              · rw [if_neg hvb] at h
                by_cases hva : -v > alpha
                · rw [if_pos hva] at h
                  have := IHprom _ _ _ _ _ _ _ _ _
                    (show -v < beta by omega) h
                  cases r with
                  | betaCut => trivial
                  | cont a' =>
                    obtain ⟨x1, x2⟩ := this
                    exact ⟨by omega, x2⟩
                · rw [if_neg hva] at h
                  exact IHprom _ _ _ _ _ _ _ _ _ hab h
      · cases h
        exact ⟨le_refl _, hab⟩
    -- qChkLoop
    · intro b color plies moves i alpha beta ply r hab h
      simp only [engine] at h
      split at h
      · split at h
        · exact IHchk _ _ _ _ _ _ _ _ _ hab h
        · rename_i copy hcopy
          split at h
          · cases h
          · rename_i v hv
            by_cases hvb : -v ≥ beta
            · rw [if_pos hvb] at h
              cases h
              trivial
            · rw [if_neg hvb] at h
              by_cases hva : -v > alpha
              · rw [if_pos hva] at h
                have := IHchk _ _ _ _ _ _ _ _ _
                  (show -v < beta by omega) h
                cases r with
                | betaCut => trivial
                | cont a' =>
                  obtain ⟨x1, x2⟩ := this
                  exact ⟨by omega, x2⟩
              · rw [if_neg hva] at h
                exact IHchk _ _ _ _ _ _ _ _ _ hab h
      · cases h
        exact ⟨le_refl _, hab⟩
    -- cq
    · intro b color plies alpha beta ply r hab h
      simp only [engine] at h
      split at h
      · cases h
      · -- cqLoop returned betaCut
        injection h with h
        omega
      · rename_i s a1 hcr
        have hinv := IHcqloop _ _ _ _ _ _ _ _ _ _ hab hcr
        obtain ⟨hx1, hx2⟩ := hinv
        by_cases hs : s = -INFTY
        · rw [if_pos hs] at h
          by_cases hm1 : -MATE_SCORE + ply + plies ≥ beta
          · rw [if_pos hm1] at h
            injection h with h
            omega
          · rw [if_neg hm1] at h
            by_cases hm2 : -MATE_SCORE + ply + plies > a1
            · rw [if_pos hm2] at h
              injection h with h
              omega
            · rw [if_neg hm2] at h
              injection h with h
              omega
        · rw [if_neg hs] at h
          injection h with h
          omega
    -- cqLoop
    · intro b color plies moves i score alpha beta ply r hab h
      simp only [engine] at h
      split at h
      · split at h
        · exact IHcqloop _ _ _ _ _ _ _ _ _ _ hab h
        · rename_i copy hcopy
          split at h
          · cases h
          · rename_i v hv
            by_cases hvb : -v ≥ beta
            · rw [if_pos hvb] at h
              cases h
              trivial
            · rw [if_neg hvb] at h
              by_cases hva : -v > alpha
              · rw [if_pos hva] at h
                have := IHcqloop _ _ _ _ _ _ _ _ _ _
                  (show -v < beta by omega) h
                cases r with
                | betaCut => trivial
                | done s' a' =>
                  obtain ⟨x1, x2⟩ := this
                  exact ⟨by omega, x2⟩
              · rw [if_neg hva] at h
                exact IHcqloop _ _ _ _ _ _ _ _ _ _ hab h
      · cases h
        exact ⟨le_refl _, hab⟩

/-- C1 counterexample: with the window `(alpha, beta) = (0, 1)` and a clock
oracle whose time comparison trips at the very first poll, `PVS` on the chain
board returns the abort sentinel `-INFTY`, which is not in `[0, 1]`: the
original unconditional fail-hard claim "including those where the stop flag
becomes set during the call" fails on the stop-abort path of `search.cpp`
line 455 (`if (isStop) return -INFTY`). -/
theorem c1_stop_counterexample :
    (0 : Int) < 1 ∧
    (PVS 6 chainB (tmoAt 0) softAlways 0 WHITE 2 0 1 [] initState).map
      (fun r => r.1) = some (-INFTY) ∧
    ¬ ((0 : Int) ≤ -INFTY ∧ (-INFTY : Int) ≤ 1) := by
  decide

/-- C1 (amended): for every call `PVS fuel B tmo softo b color depth alpha
beta pvIn st` with `alpha < beta` that produces a score, the score lies in
`[alpha, beta]` unless the call was aborted by the stop flag or the time
check, in which case the score is the `-INFTY` sentinel; every call
`quiescence fuel B tmo softo b color plies alpha beta ply` with
`alpha < beta` that produces a score is unconditionally fail-hard: the score
lies in `[alpha, beta]`. -/
theorem c1_fail_hard {β : Type} (B : BoardOps β) (tmo : Nat → Nat → Bool)
    (softo : Nat → Bool) (fuel : Nat) (b : β) (color : Nat)
    (depth alpha beta plies ply : Int) (pvIn : List Move) (st : SearchState)
    (hab : alpha < beta) :
    (∀ s, (PVS fuel B tmo softo b color depth alpha beta pvIn st).map
        (fun r => r.1) = some s → s = -INFTY ∨ (alpha ≤ s ∧ s ≤ beta)) ∧
    (∀ v, quiescence fuel B tmo softo b color plies alpha beta ply = some v →
      alpha ≤ v ∧ v ≤ beta) := by
  constructor
  · intro s hs
    cases hpv : PVS fuel B tmo softo b color depth alpha beta pvIn st with
    | none =>
      rw [hpv] at hs
      cases hs
    | some r =>
      rw [hpv] at hs
      have hs1 : r.1 = s := Option.some.inj hs
      rw [← hs1]
      exact (engine_fail_hard B tmo softo fuel).1 b color depth alpha beta
        pvIn st r hab hpv
  · intro v hv
    exact (engine_fail_hard B tmo softo fuel).2.2.2.1 b color plies alpha beta
      ply v hab hv

/-- Witness for C1: the amended theorem applied to the inert board with a
clock that never trips, at `depth = 1`, `plies = 0`, window `(0, 1)`; both
the `PVS` score and the quiescence score are `0`. -/
theorem c1_fail_hard_witness :
    ((0 : Int) = -INFTY ∨ ((0 : Int) ≤ 0 ∧ (0 : Int) ≤ 1)) ∧
    ((0 : Int) ≤ 0 ∧ (0 : Int) ≤ 1) :=
  ⟨(c1_fail_hard trivB tmoNever softAlways 5 () WHITE 1 0 1 0 0 [] initState
      (by decide)).1 0 (by decide),
   (c1_fail_hard trivB tmoNever softAlways 5 () WHITE 1 0 1 0 0 [] initState
      (by decide)).2 0 (by decide)⟩

/-- `nextMove` preserves the length of the move list. -/
theorem nextMove_len (moves : List Move) (scores : List Int) (index : Nat) :
    ((nextMove moves scores index).2.1).length = moves.length := by
  simp only [nextMove]
  split
  · rfl
  · exact swapList_length _ _ _

/-- If `nextMove` returns a non-null move, the index was in range. -/
theorem nextMove_lt_of_ne (moves : List Move) (scores : List Int) (index : Nat)
    (h : (nextMove moves scores index).1 ≠ NULL_MOVE) : index < moves.length := by
  by_contra hge
  refine h ?_
  simp only [nextMove]
  rw [if_pos (by omega)]

/-- A board family on which check evasion cycles: both positions are always
in check, the single pseudo-legal check escape is the quiet move `mQuiet`
(neither a capture nor a promotion), and playing it toggles the position. -/
def cycleB : BoardOps Bool :=
  { constOps Bool with
      isInCheck := fun _ _ => true
      getPseudoLegalCheckEscapes := fun _ _ => [mQuiet]
      doPseudoLegalMove := fun b _ _ => some (!b) }

/-- On the cycling board every quiescence entry point runs out of fuel:
`quiescence` enters `checkQuiescence`, whose single escape gives check again,
for ever. -/
theorem cycleB_none : ∀ fuel : Nat,
    (∀ (b : Bool) (color : Nat) (plies alpha beta ply : Int),
      (engine cycleB tmoNever softAlways fuel).q b color plies alpha beta ply
        = none) ∧
    (∀ (b : Bool) (color : Nat) (plies alpha beta ply : Int),
      (engine cycleB tmoNever softAlways fuel).cq b color plies alpha beta ply
        = none) ∧
    (∀ (b : Bool) (color : Nat) (plies score alpha beta ply : Int),
      (engine cycleB tmoNever softAlways fuel).cqLoop b color plies [mQuiet] 0
        score alpha beta ply = none) := by
  intro fuel
  induction fuel with
  | zero =>
    exact ⟨fun _ _ _ _ _ _ => rfl, fun _ _ _ _ _ _ => rfl,
      fun _ _ _ _ _ _ _ => rfl⟩
  | succ n ih =>
    obtain ⟨ihq, ihcq, ihloop⟩ := ih
    refine ⟨?_, ?_, ?_⟩
    · intro b color plies alpha beta ply
      simp only [engine]
      rw [if_pos (show cycleB.isInCheck b color = true from rfl)]
      exact ihcq b color plies alpha beta ply
    · intro b color plies alpha beta ply
      simp only [engine]
      have hesc : cycleB.getPseudoLegalCheckEscapes b color = [mQuiet] := rfl
      simp only [hesc, ihloop]
    · intro b color plies score alpha beta ply
      simp only [engine]
      rw [if_pos (show (0 : Nat) < [mQuiet].length by decide)]
      have hdo : cycleB.doPseudoLegalMove b ([mQuiet].getD 0 NULL_MOVE) color
          = some (!b) := rfl
      simp only [hdo, ihq]

/-- The cycling-board quiescence call never returns, whatever the fuel. -/
def quiescenceCycleDiverges : Prop :=
  ∀ fuel : Nat,
    quiescence fuel cycleB tmoNever softAlways true WHITE 0 0 1 0 = none

/-- C7 counterexample: on the cycling board — always in check, one quiet
check escape that toggles between two positions — `quiescence` at the window
`(0, 1)` runs out of fuel for every fuel, i.e. the call does not terminate:
the check extension's `plies` bound only limits the generation of checking
moves at `plies ≤ 0`, not the check-evasion recursion
`quiescence → checkQuiescence → quiescence`, and the escape applied here is
neither a capture nor a promotion. -/
theorem c7_cycle_counterexample :
    quiescenceCycleDiverges ∧ isCapture mQuiet = false ∧
      isPromotion mQuiet = false :=
  ⟨fun fuel => (cycleB_none fuel).1 true WHITE 0 0 1 0, rfl, rfl⟩

/-- Termination helper: if every successful pseudo-legal move application
strictly decreases the measure `μ` and the four quiescence move generators
produce lists of length at most `L`, every quiescence entry point of the
engine yields a result once the fuel reaches an explicit rank in `μ b` and
`L`. -/
theorem engine_q_total {β : Type} (B : BoardOps β) (tmo : Nat → Nat → Bool)
    (softo : Nat → Bool) (μ : β → Nat) (L : Nat)
    (hdec : ∀ b m c b2, B.doPseudoLegalMove b m c = some b2 → μ b2 < μ b)
    (hlen : ∀ b c, (B.getPseudoLegalCaptures b c false).length ≤ L ∧
        (B.getPseudoLegalPromotions b c).length ≤ L ∧
        (B.getPseudoLegalChecks b c).length ≤ L ∧
        (B.getPseudoLegalCheckEscapes b c).length ≤ L) :
    ∀ fuel : Nat,
    (∀ b color plies alpha beta ply, (L + 6) * μ b + 4 + L ≤ fuel →
      (engine B tmo softo fuel).q b color plies alpha beta ply ≠ none) ∧
    (∀ b color plies alpha beta ply, (L + 6) * μ b + 3 + L ≤ fuel →
      (engine B tmo softo fuel).cq b color plies alpha beta ply ≠ none) ∧
    (∀ b color plies standPat moves scores i alpha beta ply,
      moves.length ≤ L → (L + 6) * μ b + 2 + (L - i) ≤ fuel →
      (engine B tmo softo fuel).qCapLoop b color plies standPat moves scores i
        alpha beta ply ≠ none) ∧
    (∀ b color plies moves i alpha beta ply,
      moves.length ≤ L → (L + 6) * μ b + 2 + (L - i) ≤ fuel →
      (engine B tmo softo fuel).qPromLoop b color plies moves i alpha beta ply
        ≠ none) ∧
    (∀ b color plies moves i alpha beta ply,
      moves.length ≤ L → (L + 6) * μ b + 2 + (L - i) ≤ fuel →
      (engine B tmo softo fuel).qChkLoop b color plies moves i alpha beta ply
        ≠ none) ∧
    (∀ b color plies moves i score alpha beta ply,
      moves.length ≤ L → (L + 6) * μ b + 2 + (L - i) ≤ fuel →
      (engine B tmo softo fuel).cqLoop b color plies moves i score alpha beta
        ply ≠ none) := by
  intro fuel
  induction fuel with
  | zero =>
    refine ⟨?_, ?_, ?_, ?_, ?_, ?_⟩ <;>
      · intros
        exfalso
        omega
  | succ n ih =>
    obtain ⟨ihq, ihcq, ihcap, ihprom, ihchk, ihcqloop⟩ := ih
    refine ⟨?_, ?_, ?_, ?_, ?_, ?_⟩
    -- q
    · intro b color plies alpha beta ply h hnone
      simp only [engine] at hnone
      split at hnone
      · exact absurd hnone (ihcq b color plies alpha beta ply (by omega))
      · by_cases h1 : (if color = WHITE then B.evaluateMaterial b
            else -B.evaluateMaterial b) ≥ beta + MAX_POS_SCORE
        · rw [if_pos h1] at hnone
          cases hnone
        · rw [if_neg h1] at hnone
          by_cases h2 : (if color = WHITE then B.evaluateMaterial b
              else -B.evaluateMaterial b) < alpha - 2 * MAX_POS_SCORE - QUEEN_VALUE
          · rw [if_pos h2] at hnone
            cases hnone
          · rw [if_neg h2] at hnone
            by_cases h3 : (if color = WHITE then B.evaluateMaterial b
                  else -B.evaluateMaterial b)
                + (if color = WHITE then B.evaluatePositional b
                  else -B.evaluatePositional b) ≥ beta
            · rw [if_pos h3] at hnone
              cases hnone
            · rw [if_neg h3] at hnone
              set sp := (if color = WHITE then B.evaluateMaterial b
                  else -B.evaluateMaterial b)
                + (if color = WHITE then B.evaluatePositional b
                  else -B.evaluatePositional b) with hsp
              set alpha2 := if alpha < sp then sp else alpha with halpha2
              by_cases h4 : sp < alpha2 - MAX_POS_SCORE - QUEEN_VALUE
              · rw [if_pos h4] at hnone
                cases hnone
              · rw [if_neg h4] at hnone
                split at hnone
                · rename_i heq
                  exact absurd heq (ihcap b color plies _ _ _ 0 _ beta ply
                    (hlen b color).1 (by omega))
                · cases hnone
                · rename_i a1 heq
                  split at hnone
                  · rename_i heq2
                    exact absurd heq2 (ihprom b color plies _ 0 _ beta ply
                      (hlen b color).2.1 (by omega))
                  · cases hnone
                  · rename_i a2 heq2
                    by_cases hpl : plies ≤ 0
                    · rw [if_pos hpl] at hnone
                      split at hnone
                      · rename_i heq3
                        exact absurd heq3 (ihchk b color plies _ 0 _ beta ply
                          (hlen b color).2.2.1 (by omega))
                      · cases hnone
                      · cases hnone
                    · rw [if_neg hpl] at hnone
                      cases hnone
    -- cq
    · intro b color plies alpha beta ply h hnone
      simp only [engine] at hnone
      split at hnone
      · rename_i heq
        exact absurd heq (ihcqloop b color plies _ 0 _ _ beta ply
          (hlen b color).2.2.2 (by omega))
      · cases hnone
      · rename_i s a1 heq
        split at hnone
        · split at hnone
          · cases hnone
          · split at hnone
            · cases hnone
            · cases hnone
        · cases hnone
    -- qCapLoop
    · intro b color plies standPat moves scores i alpha beta ply hlenm h hnone
      simp only [engine] at hnone
      split at hnone
      · cases hnone
      · rename_i hnm
        have hilt : i < moves.length := nextMove_lt_of_ne moves scores i hnm
        split at hnone
        · exact absurd hnone (ihcap b color plies standPat _ _ (i + 1) alpha
            beta ply (by rw [nextMove_len]; exact hlenm) (by omega))
        · split at hnone
          · exact absurd hnone (ihcap b color plies standPat _ _ (i + 1) alpha
              beta ply (by rw [nextMove_len]; exact hlenm) (by omega))
          · split at hnone
            · exact absurd hnone (ihcap b color plies standPat _ _ (i + 1)
                alpha beta ply (by rw [nextMove_len]; exact hlenm) (by omega))
            · rename_i copy heq
              split at hnone
              · rename_i heq2
                have hmul := Nat.mul_le_mul_left (L + 6)
                  (hdec b _ color copy heq)
                rw [Nat.mul_succ] at hmul
                exact absurd heq2 (ihq copy (color ^^^ 1) (plies + 1) (-beta)
                  (-alpha) ply (by omega))
              · rename_i v heq2
                by_cases hvb : -v ≥ beta
                · rw [if_pos hvb] at hnone
                  cases hnone
                · rw [if_neg hvb] at hnone
                  by_cases hva : -v > alpha
                  · rw [if_pos hva] at hnone
                    exact absurd hnone (ihcap b color plies standPat _ _
                      (i + 1) (-v) beta ply (by rw [nextMove_len]; exact hlenm)
                      (by omega))
                  · rw [if_neg hva] at hnone
                    exact absurd hnone (ihcap b color plies standPat _ _
                      (i + 1) alpha beta ply
                      (by rw [nextMove_len]; exact hlenm) (by omega))
    -- qPromLoop
    · intro b color plies moves i alpha beta ply hlenm h hnone
      simp only [engine] at hnone
      split at hnone
      · rename_i hilt
        split at hnone
        · exact absurd hnone (ihprom b color plies moves (i + 1) alpha beta ply
            hlenm (by omega))
        · split at hnone
          · exact absurd hnone (ihprom b color plies moves (i + 1) alpha beta
              ply hlenm (by omega))
          · rename_i copy heq
            split at hnone
            · rename_i heq2
              have hmul := Nat.mul_le_mul_left (L + 6) (hdec b _ color copy heq)
              rw [Nat.mul_succ] at hmul
              exact absurd heq2 (ihq copy (color ^^^ 1) (plies + 1) (-beta)
                (-alpha) ply (by omega))
            · rename_i v heq2
              by_cases hvb : -v ≥ beta
              · rw [if_pos hvb] at hnone
                cases hnone
              · rw [if_neg hvb] at hnone
                by_cases hva : -v > alpha
                · rw [if_pos hva] at hnone
                  exact absurd hnone (ihprom b color plies moves (i + 1) (-v)
                    beta ply hlenm (by omega))
                · rw [if_neg hva] at hnone
                  exact absurd hnone (ihprom b color plies moves (i + 1) alpha
                    beta ply hlenm (by omega))
      · cases hnone
    -- qChkLoop
    · intro b color plies moves i alpha beta ply hlenm h hnone
      simp only [engine] at hnone
      split at hnone
      · rename_i hilt
        split at hnone
        · exact absurd hnone (ihchk b color plies moves (i + 1) alpha beta ply
            hlenm (by omega))
        · rename_i copy heq
          split at hnone
          · rename_i heq2
            have hmul := Nat.mul_le_mul_left (L + 6) (hdec b _ color copy heq)
            rw [Nat.mul_succ] at hmul
            exact absurd heq2 (ihcq copy (color ^^^ 1) (plies + 1) (-beta)
              (-alpha) ply (by omega))
          · rename_i v heq2
            by_cases hvb : -v ≥ beta
            · rw [if_pos hvb] at hnone
              cases hnone
            · rw [if_neg hvb] at hnone
              by_cases hva : -v > alpha
              · rw [if_pos hva] at hnone
                exact absurd hnone (ihchk b color plies moves (i + 1) (-v) beta
                  ply hlenm (by omega))
              · rw [if_neg hva] at hnone
                exact absurd hnone (ihchk b color plies moves (i + 1) alpha
                  beta ply hlenm (by omega))
      · cases hnone
    -- cqLoop
    · intro b color plies moves i score alpha beta ply hlenm h hnone
      simp only [engine] at hnone
      split at hnone
      · rename_i hilt
        split at hnone
        · exact absurd hnone (ihcqloop b color plies moves (i + 1) score alpha
            beta ply hlenm (by omega))
        · rename_i copy heq
          split at hnone
          · rename_i heq2
            have hmul := Nat.mul_le_mul_left (L + 6) (hdec b _ color copy heq)
            rw [Nat.mul_succ] at hmul
            exact absurd heq2 (ihq copy (color ^^^ 1) (plies + 1) (-beta)
              (-alpha) ply (by omega))
          · rename_i v heq2
            by_cases hvb : -v ≥ beta
            · rw [if_pos hvb] at hnone
              cases hnone
            · rw [if_neg hvb] at hnone
              by_cases hva : -v > alpha
              · rw [if_pos hva] at hnone
                exact absurd hnone (ihcqloop b color plies moves (i + 1) (-v)
                  (-v) beta ply hlenm (by omega))
              · rw [if_neg hva] at hnone
                exact absurd hnone (ihcqloop b color plies moves (i + 1) (-v)
                  alpha beta ply hlenm (by omega))
      · cases hnone

/-- C7 (amended): `quiescence` and `checkQuiescence` terminate (return a
result rather than running out of fuel) provided every successful
pseudo-legal move application strictly decreases a well-founded measure —
imposed on check evasions as well, not only on captures and promotions — and
the quiescence move generators produce lists of bounded length; the required
fuel is the explicit rank `(L + 6) * μ b + 4 + L`.  The check-extension
`plies` bound alone does not ensure termination. -/
theorem c7_quiescence_terminates {β : Type} (B : BoardOps β)
    (tmo : Nat → Nat → Bool) (softo : Nat → Bool) (μ : β → Nat) (L : Nat)
    (hdec : ∀ b m c b2, B.doPseudoLegalMove b m c = some b2 → μ b2 < μ b)
    (hlen : ∀ b c, (B.getPseudoLegalCaptures b c false).length ≤ L ∧
        (B.getPseudoLegalPromotions b c).length ≤ L ∧
        (B.getPseudoLegalChecks b c).length ≤ L ∧
        (B.getPseudoLegalCheckEscapes b c).length ≤ L)
    (fuel : Nat) (b : β) (color : Nat) (plies alpha beta ply : Int)
    (hfuel : (L + 6) * μ b + 4 + L ≤ fuel) :
    quiescence fuel B tmo softo b color plies alpha beta ply ≠ none ∧
    checkQuiescence fuel B tmo softo b color plies alpha beta ply ≠ none :=
  ⟨(engine_q_total B tmo softo μ L hdec hlen fuel).1 b color plies alpha beta
      ply hfuel,
   (engine_q_total B tmo softo μ L hdec hlen fuel).2.1 b color plies alpha
      beta ply (by omega)⟩

/-- Witness for C7: on the inert board (no moves anywhere, measure constantly
zero, generator bound `L = 0`) fuel `4` already suffices for both quiescence
entry points. -/
theorem c7_quiescence_terminates_witness :
    (quiescence 4 trivB tmoNever softAlways () WHITE 0 0 1 0).isSome = true ∧
    (checkQuiescence 4 trivB tmoNever softAlways () WHITE 0 0 1 0).isSome
      = true := by
  have h := c7_quiescence_terminates trivB tmoNever softAlways (fun _ => 0) 0
    (fun _ _ _ _ hx => Option.noConfusion hx)
    (fun _ _ => ⟨Nat.le_refl 0, Nat.le_refl 0, Nat.le_refl 0, Nat.le_refl 0⟩)
    4 () WHITE 0 0 1 0 (by decide)
  exact ⟨Option.ne_none_iff_isSome.mp h.1, Option.ne_none_iff_isSome.mp h.2⟩

end Laser
